import Mathlib

set_option maxRecDepth 100000

/-!
Formal model of the zama-whisper repository: the PrivateMsg Solidity contract
and the TypeScript SDK modules (KeyManager, EncryptionModule, AuthModule,
MessageModule).  Machine integers are modelled as Nat with explicit reduction
modulo powers of two; byte strings are lists of Nat below 256; external
capabilities (the FHE oracle, the AES block cipher of crypto-js, the secp256k1
address derivation of ethers) are explicit parameters.
-/

/-! ## Byte and word utilities -/

/-- Big-endian value of a byte list: bytesToNatBE [b0, b1] is b0 * 256 + b1. -/
def bytesToNatBE (bs : List Nat) : Nat :=
  List.foldl (fun a b => a * 256 + b) 0 bs

/-- Sixty-four bit left rotation. -/
def rotl64 (x n : Nat) : Nat :=
  ((x <<< n) ||| (x >>> (64 - n))) % 2 ^ 64

/-- Sixty-four bit complement of a lane below 2 to the 64. -/
def comp64 (x : Nat) : Nat := x ^^^ (2 ^ 64 - 1)

/-- The 25-lane state of the Keccak-f[1600] permutation; lane x + 5 y of the
sponge is field s(x + 5 y), each lane a 64-bit value. -/
structure KState where
  s0 : Nat
  s1 : Nat
  s2 : Nat
  s3 : Nat
  s4 : Nat
  s5 : Nat
  s6 : Nat
  s7 : Nat
  s8 : Nat
  s9 : Nat
  s10 : Nat
  s11 : Nat
  s12 : Nat
  s13 : Nat
  s14 : Nat
  s15 : Nat
  s16 : Nat
  s17 : Nat
  s18 : Nat
  s19 : Nat
  s20 : Nat
  s21 : Nat
  s22 : Nat
  s23 : Nat
  s24 : Nat
/-- One round of the Keccak-f permutation on 25 lanes of 64 bits. -/
def keccakRound (s : KState) (rc : Nat) : KState :=
  let c0 := s.s0 ^^^ s.s5 ^^^ s.s10 ^^^ s.s15 ^^^ s.s20
  let c1 := s.s1 ^^^ s.s6 ^^^ s.s11 ^^^ s.s16 ^^^ s.s21
  let c2 := s.s2 ^^^ s.s7 ^^^ s.s12 ^^^ s.s17 ^^^ s.s22
  let c3 := s.s3 ^^^ s.s8 ^^^ s.s13 ^^^ s.s18 ^^^ s.s23
  let c4 := s.s4 ^^^ s.s9 ^^^ s.s14 ^^^ s.s19 ^^^ s.s24
  let d0 := c4 ^^^ rotl64 c1 1
  let d1 := c0 ^^^ rotl64 c2 1
  let d2 := c1 ^^^ rotl64 c3 1
  let d3 := c2 ^^^ rotl64 c4 1
  let d4 := c3 ^^^ rotl64 c0 1
  let t0 := s.s0 ^^^ d0
  let t1 := s.s1 ^^^ d1
  let t2 := s.s2 ^^^ d2
  let t3 := s.s3 ^^^ d3
  let t4 := s.s4 ^^^ d4
  let t5 := s.s5 ^^^ d0
  let t6 := s.s6 ^^^ d1
  let t7 := s.s7 ^^^ d2
  let t8 := s.s8 ^^^ d3
  let t9 := s.s9 ^^^ d4
  let t10 := s.s10 ^^^ d0
  let t11 := s.s11 ^^^ d1
  let t12 := s.s12 ^^^ d2
  let t13 := s.s13 ^^^ d3
  let t14 := s.s14 ^^^ d4
  let t15 := s.s15 ^^^ d0
  let t16 := s.s16 ^^^ d1
  let t17 := s.s17 ^^^ d2
  let t18 := s.s18 ^^^ d3
  let t19 := s.s19 ^^^ d4
  let t20 := s.s20 ^^^ d0
  let t21 := s.s21 ^^^ d1
  let t22 := s.s22 ^^^ d2
  let t23 := s.s23 ^^^ d3
  let t24 := s.s24 ^^^ d4
  let b0 := t0
  let b1 := rotl64 t6 44
  let b2 := rotl64 t12 43
  let b3 := rotl64 t18 21
  let b4 := rotl64 t24 14
  let b5 := rotl64 t3 28
  let b6 := rotl64 t9 20
  let b7 := rotl64 t10 3
  let b8 := rotl64 t16 45
  let b9 := rotl64 t22 61
  let b10 := rotl64 t1 1
  let b11 := rotl64 t7 6
  let b12 := rotl64 t13 25
  let b13 := rotl64 t19 8
  let b14 := rotl64 t20 18
  let b15 := rotl64 t4 27
  let b16 := rotl64 t5 36
  let b17 := rotl64 t11 10
  let b18 := rotl64 t17 15
  let b19 := rotl64 t23 56
  let b20 := rotl64 t2 62
  let b21 := rotl64 t8 55
  let b22 := rotl64 t14 39
  let b23 := rotl64 t15 41
  let b24 := rotl64 t21 2
  let e0 := b0 ^^^ (comp64 b1 &&& b2)
  let e1 := b1 ^^^ (comp64 b2 &&& b3)
  let e2 := b2 ^^^ (comp64 b3 &&& b4)
  let e3 := b3 ^^^ (comp64 b4 &&& b0)
  let e4 := b4 ^^^ (comp64 b0 &&& b1)
  let e5 := b5 ^^^ (comp64 b6 &&& b7)
  let e6 := b6 ^^^ (comp64 b7 &&& b8)
  let e7 := b7 ^^^ (comp64 b8 &&& b9)
  let e8 := b8 ^^^ (comp64 b9 &&& b5)
  let e9 := b9 ^^^ (comp64 b5 &&& b6)
  let e10 := b10 ^^^ (comp64 b11 &&& b12)
  let e11 := b11 ^^^ (comp64 b12 &&& b13)
  let e12 := b12 ^^^ (comp64 b13 &&& b14)
  let e13 := b13 ^^^ (comp64 b14 &&& b10)
  let e14 := b14 ^^^ (comp64 b10 &&& b11)
  let e15 := b15 ^^^ (comp64 b16 &&& b17)
  let e16 := b16 ^^^ (comp64 b17 &&& b18)
  let e17 := b17 ^^^ (comp64 b18 &&& b19)
  let e18 := b18 ^^^ (comp64 b19 &&& b15)
  let e19 := b19 ^^^ (comp64 b15 &&& b16)
  let e20 := b20 ^^^ (comp64 b21 &&& b22)
  let e21 := b21 ^^^ (comp64 b22 &&& b23)
  let e22 := b22 ^^^ (comp64 b23 &&& b24)
  let e23 := b23 ^^^ (comp64 b24 &&& b20)
  let e24 := b24 ^^^ (comp64 b20 &&& b21)
  KState.mk (e0 ^^^ rc) e1 e2 e3 e4 e5 e6 e7 e8 e9 e10 e11 e12 e13 e14 e15 e16 e17 e18 e19 e20 e21 e22 e23 e24

/-- Round constants of Keccak-f[1600]. -/
def keccakRC : List Nat := [0x1, 0x8082, 0x800000000000808a, 0x8000000080008000, 0x808b, 0x80000001, 0x8000000080008081, 0x8000000000008009, 0x8a, 0x88, 0x80008009, 0x8000000a, 0x8000808b, 0x800000000000008b, 0x8000000000008089, 0x8000000000008003, 0x8000000000008002, 0x8000000000000080, 0x800a, 0x800000008000000a, 0x8000000080008081, 0x8000000000008080, 0x80000001, 0x8000000080008008]

/-- Build the sponge state by absorbing one 136-byte rate block (little-endian lanes). -/
def absorbBlock (p : List Nat) : KState :=
  let lane := fun (j : Nat) =>
    p.getD (8*j) 0 + p.getD (8*j+1) 0 <<< 8 + p.getD (8*j+2) 0 <<< 16 + p.getD (8*j+3) 0 <<< 24 +
    p.getD (8*j+4) 0 <<< 32 + p.getD (8*j+5) 0 <<< 40 + p.getD (8*j+6) 0 <<< 48 + p.getD (8*j+7) 0 <<< 56
  KState.mk (lane 0) (lane 1) (lane 2) (lane 3) (lane 4) (lane 5) (lane 6) (lane 7) (lane 8) (lane 9) (lane 10) (lane 11) (lane 12) (lane 13) (lane 14) (lane 15) (lane 16) 0 0 0 0 0 0 0 0

/-- Read the 256-bit digest from the first four lanes, as a big-endian natural number. -/
def digestNat (s : KState) : Nat :=
  bytesToNatBE [s.s0 >>> 0 &&& 255, s.s0 >>> 8 &&& 255, s.s0 >>> 16 &&& 255, s.s0 >>> 24 &&& 255, s.s0 >>> 32 &&& 255, s.s0 >>> 40 &&& 255, s.s0 >>> 48 &&& 255, s.s0 >>> 56 &&& 255, s.s1 >>> 0 &&& 255, s.s1 >>> 8 &&& 255, s.s1 >>> 16 &&& 255, s.s1 >>> 24 &&& 255, s.s1 >>> 32 &&& 255, s.s1 >>> 40 &&& 255, s.s1 >>> 48 &&& 255, s.s1 >>> 56 &&& 255, s.s2 >>> 0 &&& 255, s.s2 >>> 8 &&& 255, s.s2 >>> 16 &&& 255, s.s2 >>> 24 &&& 255, s.s2 >>> 32 &&& 255, s.s2 >>> 40 &&& 255, s.s2 >>> 48 &&& 255, s.s2 >>> 56 &&& 255, s.s3 >>> 0 &&& 255, s.s3 >>> 8 &&& 255, s.s3 >>> 16 &&& 255, s.s3 >>> 24 &&& 255, s.s3 >>> 32 &&& 255, s.s3 >>> 40 &&& 255, s.s3 >>> 48 &&& 255, s.s3 >>> 56 &&& 255]

/-- Keccak-f[1600]: 24 rounds. -/
def keccakF (s : KState) : KState :=
  keccakRC.foldl keccakRound s

/-- Keccak multi-rate padding for a single 136-byte rate block; defined for
messages shorter than 135 bytes, which covers every use in this development. -/
def keccakPad (msg : List Nat) : List Nat :=
  msg ++ [1] ++ List.replicate (134 - msg.length) 0 ++ [128]

/-- The keccak256 hash of a byte list, as a big-endian 256-bit natural number.
This is the legacy Keccak-256 used by Ethereum (domain byte 0x01). -/
def keccak256 (msg : List Nat) : Nat :=
  digestNat (keccakF (absorbBlock (keccakPad msg)))

/-- Reference vector: keccak256 of the empty input, the well-known constant
0xc5d2460186f7233c927e7db2dcc703c0e500b653ca82273b7bfad8045d85a470. -/
theorem keccak256_nil_vector :
    keccak256 [] = 89477152217924674838424037953991966239322087453347756267410168184682657981552 := by
  decide

/-- Reference vector: keccak256 of the ASCII bytes of abc. -/
theorem keccak256_abc_vector :
    keccak256 [97, 98, 99] = 35286403120855365962805127237049809881669876751651884979611909062921250761797 := by
  decide

/-! ## Fixed-width big-endian encodings -/

/-- Big-endian base-256 digits: the n low bytes of v, most significant first. -/
def natToBytesBE : Nat → Nat → List Nat
  | 0, _ => []
  | Nat.succ n, v => natToBytesBE n (v / 256) ++ [v % 256]

/-- Big-endian base-16 digits: the n low nibbles of v, most significant first. -/
def natToNibsBE : Nat → Nat → List Nat
  | 0, _ => []
  | Nat.succ n, v => natToNibsBE n (v / 16) ++ [v % 16]

/-! ## EIP-55 checksummed addresses (ethers getAddress)

The ethers getAddress function accepts any valid textual encoding of an
address and returns its EIP-55 checksummed string, so it factors through the
160-bit address value; addresses are therefore modelled as natural numbers
below 2 to the 160 and getAddress as the function from the value to the
checksummed ASCII string. -/

/-- Lowercase hexadecimal digit as an ASCII byte. -/
def hexCharL (d : Nat) : Nat := if d < 10 then 48 + d else 87 + d

/-- One character of an EIP-55 checksummed address: address nibble d is
uppercased when it is a letter and the matching nibble hn of the keccak256
hash of the lowercase address string is at least 8. -/
def csChar (d hn : Nat) : Nat :=
  if 10 ≤ d ∧ 8 ≤ hn then 55 + d else hexCharL d

/-- ASCII bytes of the 40-character lowercase hexadecimal form of an address
value, without the 0x prefix. -/
def lowerHex40 (a : Nat) : List Nat := (natToNibsBE 40 a).map hexCharL

/-- ASCII bytes of the EIP-55 checksummed string of an address value,
including the 0x prefix: the model of ethers getAddress. -/
def getAddressStr (a : Nat) : List Nat :=
  let h := keccak256 (lowerHex40 a)
  48 :: 120 :: List.zipWith csChar (natToNibsBE 40 a) ((natToNibsBE 64 h).take 40)

/-- Reference vector for getAddressStr: the EIP-55 test address
0x5aAeb6053F3E94C9b9A09f33669435E7Ef1BeAed. -/
theorem getAddressStr_vector :
    getAddressStr 0x5aaeb6053f3e94c9b9a09f33669435e7ef1beaed =
      [48, 120, 53, 97, 65, 101, 98, 54, 48, 53, 51, 70, 51, 69, 57, 52, 67, 57,
       98, 57, 65, 48, 57, 102, 51, 51, 54, 54, 57, 52, 51, 53, 69, 55, 69, 102,
       49, 66, 101, 65, 101, 100] := by
  decide

/-! ## JavaScript string comparison

The JavaScript less-than operator on strings compares UTF-16 code units
lexicographically; all strings compared in the SDK are ASCII, so it is the
lexicographic order on the byte lists. -/

/-- Lexicographic less-than on code-unit lists, as computed by the JavaScript
less-than operator on strings. -/
def jsStrLt : List Nat → List Nat → Bool
  | [], [] => false
  | [], _ :: _ => true
  | _ :: _, [] => false
  | x :: xs, y :: ys => if x < y then true else if y < x then false else jsStrLt xs ys

/-! ## Conversation identifiers -/

/-- The domain-separation constant shared by the contract and the SDK
(CODE_HASH in PrivateMsg.sol and in the SDK constants). -/
def CODE_HASH : Nat := 0x326792ea9981945c5ee81b1b459d2a986cc13aba6f9335ce16b6dd2e2823f496

/-- Packed bytes of (address t0, address t1, bytes32 CODE_HASH): the model of
both abi.encodePacked in the contract and solidityPacked in the SDK. -/
def packPair (t0 t1 : Nat) : List Nat :=
  natToBytesBE 20 t0 ++ natToBytesBE 20 t1 ++ natToBytesBE 32 CODE_HASH

namespace PrivateMsg

/-- The getMsgID function of the PrivateMsg contract: sort the two addresses
by unsigned numeric comparison, hash the packed pair with CODE_HASH, and keep
the low 160 bits of the digest. -/
def getMsgID (tokenA tokenB : Nat) : Nat :=
  let p := if tokenA < tokenB then packPair tokenA tokenB else packPair tokenB tokenA
  keccak256 p % 2 ^ 160

end PrivateMsg

namespace KeyManager

/-- The getDialogueAddress function of the SDK KeyManager: normalize both
addresses with getAddress (EIP-55 checksummed strings), sort the pair by the
JavaScript string less-than on those checksummed strings, pack with CODE_HASH
via solidityPacked, hash, and keep the low 160 bits. -/
def getDialogueAddress (address1 address2 : Nat) : Nat :=
  let addr1 := getAddressStr address1
  let addr2 := getAddressStr address2
  let p := if jsStrLt addr1 addr2 then packPair address1 address2
           else packPair address2 address1
  keccak256 p % 2 ^ 160

end KeyManager

/-- C2: the claim states that KeyManager.getDialogueAddress computes the same
identifier as the contract getMsgID bit-for-bit for every pair of distinct
addresses, ordering the pair by unsigned numeric comparison.  This is false:
the SDK orders the EIP-55 checksummed strings by JavaScript string comparison,
which is case-sensitive ASCII order, not numeric order.  At the concrete pair
below (a = 0xedd968311ca35cfb04fc6d827d15438552fbe43b, which checksums to
0xEDD968311cA35CFb04FC6D827d15438552fbe43B, and b =
0xce88cb2dd4e80839fc3e058be0f3eab05cec4eb5, which checksums to
0xcE88cB2Dd4E80839Fc3e058bE0F3eAb05cEC4eb5) the contract sorts b first since
b is numerically smaller, while the SDK sorts a first since the ASCII code of
E is below that of c; the two functions then hash differently ordered packed
bytes and disagree. -/
theorem getDialogueAddress_ne_getMsgID :
    KeyManager.getDialogueAddress
        0xedd968311ca35cfb04fc6d827d15438552fbe43b
        0xce88cb2dd4e80839fc3e058be0f3eab05cec4eb5 =
      0xc4f052073d9bc6d597ad734f744c70779e96404d ∧
    PrivateMsg.getMsgID
        0xedd968311ca35cfb04fc6d827d15438552fbe43b
        0xce88cb2dd4e80839fc3e058be0f3eab05cec4eb5 =
      0x76ac684ba211dab55f2f6ddf5d198c5ac08c883d ∧
    KeyManager.getDialogueAddress
        0xedd968311ca35cfb04fc6d827d15438552fbe43b
        0xce88cb2dd4e80839fc3e058be0f3eab05cec4eb5 ≠
      PrivateMsg.getMsgID
        0xedd968311ca35cfb04fc6d827d15438552fbe43b
        0xce88cb2dd4e80839fc3e058be0f3eab05cec4eb5 := by
  refine ⟨by decide, by decide, by decide⟩

/-! ## Order facts about JavaScript string comparison -/

theorem jsStrLt_asymm : ∀ {x y : List Nat}, jsStrLt x y = true → jsStrLt y x = false
  | [], [], h => by simp [jsStrLt] at h
  | [], _ :: _, _ => rfl
  | _ :: _, [], h => by simp [jsStrLt] at h
  | x :: xs, y :: ys, h => by
    by_cases hxy : x < y
    · simp [jsStrLt, hxy, Nat.lt_asymm hxy]
    · by_cases hyx : y < x
      · simp [jsStrLt, hxy, hyx] at h
      · simp only [jsStrLt, if_neg hxy, if_neg hyx] at h
        simp only [jsStrLt, if_neg hyx, if_neg hxy]
        exact jsStrLt_asymm h

theorem jsStrLt_eq_of_not_lt :
    ∀ {x y : List Nat}, jsStrLt x y = false → jsStrLt y x = false → x = y
  | [], [], _, _ => rfl
  | [], _ :: _, h, _ => by simp [jsStrLt] at h
  | _ :: _, [], _, h => by simp [jsStrLt] at h
  | x :: xs, y :: ys, h, h' => by
    by_cases hxy : x < y
    · simp [jsStrLt, hxy] at h
    · by_cases hyx : y < x
      · simp [jsStrLt, hyx] at h'
      · simp only [jsStrLt, if_neg hxy, if_neg hyx] at h
        simp only [jsStrLt, if_neg hyx, if_neg hxy] at h'
        have hxy' : x = y := Nat.le_antisymm (Nat.not_lt.mp hyx) (Nat.not_lt.mp hxy)
        rw [hxy', jsStrLt_eq_of_not_lt h h']

/-! ## Injectivity of the checksummed address string -/

theorem natToNibsBE_length (n : Nat) : ∀ v, (natToNibsBE n v).length = n := by
  induction n with
  | zero => intro v; rfl
  | succ n ih => intro v; simp [natToNibsBE, ih]

theorem natToNibsBE_lt (n : Nat) : ∀ v, ∀ x ∈ natToNibsBE n v, x < 16 := by
  induction n with
  | zero => intro v x hx; simp [natToNibsBE] at hx
  | succ n ih =>
    intro v x hx
    simp only [natToNibsBE, List.mem_append, List.mem_singleton] at hx
    rcases hx with hx | hx
    · exact ih _ x hx
    · subst hx; exact Nat.mod_lt _ (by omega)

theorem natToNibsBE_inj (n : Nat) :
    ∀ a b, natToNibsBE n a = natToNibsBE n b → a % 16 ^ n = b % 16 ^ n := by
  induction n with
  | zero => intro a b _; simp [Nat.mod_one]
  | succ n ih =>
    intro a b h
    simp only [natToNibsBE] at h
    have hlen : (natToNibsBE n (a / 16)).length = (natToNibsBE n (b / 16)).length := by
      rw [natToNibsBE_length, natToNibsBE_length]
    obtain ⟨h1, h2⟩ := List.append_inj h hlen
    have hmod : a % 16 = b % 16 := by simpa using h2
    have hdiv : a / 16 % 16 ^ n = b / 16 % 16 ^ n := ih _ _ h1
    have e : ∀ m : Nat, m % 16 ^ (n + 1) = m % 16 + 16 * (m / 16 % 16 ^ n) := by
      intro m
      rw [pow_succ, Nat.mul_comm (16 ^ n) 16, Nat.mod_mul]
    rw [e, e, hmod, hdiv]

/-- Lowercasing of an ASCII byte, as String.prototype.toLowerCase acts on the
characters appearing in hexadecimal address strings. -/
def lowerByte (c : Nat) : Nat := if 65 ≤ c ∧ c ≤ 90 then c + 32 else c

theorem lowerByte_csChar :
    ∀ d, d < 16 → ∀ hn, hn < 16 → lowerByte (csChar d hn) = hexCharL d := by decide

theorem hexCharL_inj : ∀ {d e : Nat}, hexCharL d = hexCharL e → d = e := by
  intro d e h
  simp only [hexCharL] at h
  by_cases hd : d < 10 <;> by_cases he : e < 10 <;> simp [hd, he] at h <;> omega

theorem map_lowerByte_zipWith_csChar :
    ∀ (xs ys : List Nat), (∀ x ∈ xs, x < 16) → (∀ y ∈ ys, y < 16) →
      xs.length = ys.length →
      (List.zipWith csChar xs ys).map lowerByte = xs.map hexCharL
  | [], _, _, _, _ => by simp
  | _ :: _, [], _, _, h => by simp at h
  | x :: xs, y :: ys, hx, hy, h => by
    simp only [List.zipWith_cons_cons, List.map_cons, List.length_cons] at *
    rw [lowerByte_csChar x (hx x (List.mem_cons_self x xs)) y (hy y (List.mem_cons_self y ys)),
      map_lowerByte_zipWith_csChar xs ys
        (fun z hz => hx z (List.mem_cons_of_mem x hz))
        (fun z hz => hy z (List.mem_cons_of_mem y hz)) (by omega)]

theorem getAddressStr_inj {a b : Nat} (ha : a < 2 ^ 160) (hb : b < 2 ^ 160)
    (h : getAddressStr a = getAddressStr b) : a = b := by
  simp only [getAddressStr, List.cons.injEq, true_and] at h
  have hlow : ∀ v : Nat,
      (List.zipWith csChar (natToNibsBE 40 v)
        ((natToNibsBE 64 (keccak256 (lowerHex40 v))).take 40)).map lowerByte =
      (natToNibsBE 40 v).map hexCharL := by
    intro v
    refine map_lowerByte_zipWith_csChar _ _ (natToNibsBE_lt 40 v) ?_ ?_
    · intro y hy
      exact natToNibsBE_lt 64 _ y (List.mem_of_mem_take hy)
    · rw [natToNibsBE_length, List.length_take, natToNibsBE_length]
      omega
  have hmap : (natToNibsBE 40 a).map hexCharL = (natToNibsBE 40 b).map hexCharL := by
    rw [← hlow a, ← hlow b, h]
  have hnibs : natToNibsBE 40 a = natToNibsBE 40 b :=
    List.map_injective_iff.mpr (fun _ _ => hexCharL_inj) hmap
  have hpow : (16 : Nat) ^ 40 = 2 ^ 160 := by decide
  have := natToNibsBE_inj 40 a b hnibs
  rwa [hpow, Nat.mod_eq_of_lt ha, Nat.mod_eq_of_lt hb] at this

/-- C3: for all 160-bit address values, getDialogueAddress is symmetric in its
two inputs, and it is deterministic: as a pure function of the two address
values, identical inputs always produce the identical identifier. -/
theorem getDialogueAddress_symm (a b : Nat) (ha : a < 2 ^ 160) (hb : b < 2 ^ 160) :
    KeyManager.getDialogueAddress a b = KeyManager.getDialogueAddress b a ∧
    ∀ x y, x = a → y = b →
      KeyManager.getDialogueAddress x y = KeyManager.getDialogueAddress a b := by
  refine ⟨?_, fun x y hx hy => by rw [hx, hy]⟩
  simp only [KeyManager.getDialogueAddress]
  cases hab : jsStrLt (getAddressStr a) (getAddressStr b)
  · cases hba : jsStrLt (getAddressStr b) (getAddressStr a)
    · have : a = b := getAddressStr_inj ha hb (jsStrLt_eq_of_not_lt hab hba)
      subst this
      simp
    · simp [hab, hba]
  · rw [jsStrLt_asymm hab]
    simp [hab]

/-- Witness for C3 at the concrete pair (1, 2). -/
theorem getDialogueAddress_symm_witness :
    KeyManager.getDialogueAddress 1 2 = KeyManager.getDialogueAddress 2 1 ∧
    ∀ x y, x = 1 → y = 2 →
      KeyManager.getDialogueAddress x y = KeyManager.getDialogueAddress 1 2 :=
  getDialogueAddress_symm 1 2 (by decide) (by decide)

/-! ## EncryptionModule: AES-256-CBC message codec

The EncryptionModule encrypts the UTF-8 code units of the message with
AES-256-CBC (crypto-js), PKCS7 padding, a fresh random 16-byte IV, and
returns 0x followed by the lowercase hex of IV concatenated with the
ciphertext.  Plaintext is modelled as its list of UTF-8 code units; the
random IV is an explicit 16-byte argument; the AES block cipher itself lives
in the crypto-js dependency, so it is an abstract parameter mapping a key and
a 16-byte block to a 16-byte block, with its inverse as a second parameter. -/

namespace EncryptionModule

/-- Bytewise xor of two equal-length byte blocks (crypto-js xors word by
word, which on byte lists is the bytewise xor). -/
def zipXor (a b : List Nat) : List Nat := List.zipWith (fun x y => x ^^^ y) a b

/-- PKCS7 padding to 16-byte blocks: append k copies of k, where k is 16
minus the remainder of the length (16 when the length is a multiple of 16). -/
def pad16 (bs : List Nat) : List Nat :=
  bs ++ List.replicate (16 - bs.length % 16) (16 - bs.length % 16)

/-- Split a byte list into its consecutive 16-byte chunks; the first argument
is recursion fuel, adequate whenever it is at least the length of the list. -/
def chunk16 : Nat → List Nat → List (List Nat)
  | 0, _ => []
  | _, [] => []
  | fuel + 1, bs => bs.take 16 :: chunk16 fuel (bs.drop 16)

/-- Concatenation of a list of blocks back into a byte list. -/
def concatBlocks : List (List Nat) → List Nat
  | [] => []
  | b :: bs => b ++ concatBlocks bs

/-- CBC-mode encryption of a block sequence over an abstract block cipher E:
each plaintext block is xored with the previous ciphertext block (initially
the IV) and passed through E. -/
def cbcEncBlocks (E : Nat → List Nat → List Nat) (key : Nat) :
    List Nat → List (List Nat) → List (List Nat)
  | _, [] => []
  | prev, blk :: blks =>
    let c := E key (zipXor blk prev)
    c :: cbcEncBlocks E key c blks

/-- CBC-mode decryption of a block sequence over the abstract inverse block
cipher D. -/
def cbcDecBlocks (D : Nat → List Nat → List Nat) (key : Nat) :
    List Nat → List (List Nat) → List (List Nat)
  | _, [] => []
  | prev, c :: cs => zipXor (D key c) prev :: cbcDecBlocks D key c cs

/-- CBC encryption of a byte list (a whole number of 16-byte blocks). -/
def cbcEnc (E : Nat → List Nat → List Nat) (key : Nat) (prev bs : List Nat) :
    List Nat :=
  concatBlocks (cbcEncBlocks E key prev (chunk16 bs.length bs))

/-- CBC decryption of a byte list (a whole number of 16-byte blocks). -/
def cbcDec (D : Nat → List Nat → List Nat) (key : Nat) (prev cs : List Nat) :
    List Nat :=
  concatBlocks (cbcDecBlocks D key prev (chunk16 cs.length cs))

/-- Lowercase hex encoding of a byte list, two ASCII characters per byte, as
produced by the crypto-js Hex encoder. -/
def hexEncode : List Nat → List Nat
  | [] => []
  | b :: bs => hexCharL (b / 16) :: hexCharL (b % 16) :: hexEncode bs

/-- Value of one ASCII hex character. -/
def hexDigVal (c : Nat) : Option Nat :=
  if 48 ≤ c ∧ c ≤ 57 then some (c - 48)
  else if 97 ≤ c ∧ c ≤ 102 then some (c - 87)
  else if 65 ≤ c ∧ c ≤ 70 then some (c - 55)
  else none

/-- Hex decoding of an ASCII string to bytes, as the crypto-js Hex parser
reads the combined IV-and-ciphertext string; none models a malformed string
that cannot arise from the encoder. -/
def hexDecode : List Nat → Option (List Nat)
  | [] => some []
  | [_] => none
  | c1 :: c2 :: cs =>
    match hexDigVal c1, hexDigVal c2, hexDecode cs with
    | some d1, some d2, some bs => some ((d1 * 16 + d2) :: bs)
    | _, _, _ => none

/-- Last byte of a byte list (0 for the empty list): the byte the crypto-js
PKCS7 unpadding step reads to decide how many bytes to strip. -/
def lastByte : List Nat → Nat
  | [] => 0
  | [b] => b
  | _ :: b :: bs => lastByte (b :: bs)

/-- Validity of a byte list as a UTF-8 encoding: the crypto-js Utf8
stringifier throws Malformed UTF-8 data exactly on invalid encodings. -/
def utf8Valid : List Nat → Bool
  | [] => true
  | b :: bs =>
    if b < 0x80 then utf8Valid bs
    else if 0xc2 ≤ b ∧ b ≤ 0xdf then
      match bs with
      | b2 :: rest => decide (0x80 ≤ b2 ∧ b2 ≤ 0xbf) && utf8Valid rest
      | [] => false
    else if 0xe0 ≤ b ∧ b ≤ 0xef then
      match bs with
      | b2 :: b3 :: rest =>
        decide ((if b = 0xe0 then 0xa0 else 0x80) ≤ b2 ∧
                b2 ≤ (if b = 0xed then 0x9f else 0xbf)) &&
        decide (0x80 ≤ b3 ∧ b3 ≤ 0xbf) && utf8Valid rest
      | _ => false
    else if 0xf0 ≤ b ∧ b ≤ 0xf4 then
      match bs with
      | b2 :: b3 :: b4 :: rest =>
        decide ((if b = 0xf0 then 0x90 else 0x80) ≤ b2 ∧
                b2 ≤ (if b = 0xf4 then 0x8f else 0xbf)) &&
        decide (0x80 ≤ b3 ∧ b3 ≤ 0xbf) && decide (0x80 ≤ b4 ∧ b4 ≤ 0xbf) &&
        utf8Valid rest
      | _ => false
    else false

/-- The encryptMessage function of the EncryptionModule: PKCS7-pad the
message bytes, CBC-encrypt under the 256-bit key with the random IV, and
return 0x followed by the lowercase hex encoding of IV concatenated with the
ciphertext (48 and 120 are the ASCII codes of 0 and x). -/
def encryptMessage (E : Nat → List Nat → List Nat) (message : List Nat)
    (key : Nat) (iv : List Nat) : List Nat :=
  48 :: 120 :: hexEncode (iv ++ cbcEnc E key iv (pad16 message))

/-- The decryptMessage function of the EncryptionModule: strip the optional
0x prefix, hex-decode, split the leading 16 bytes off as the IV, CBC-decrypt
the remainder, strip PKCS7 padding by the value of the last byte, stringify
as UTF-8 (throwing on malformed data), and reject an empty result. -/
def decryptMessage (D : Nat → List Nat → List Nat) (encryptedMessage : List Nat)
    (key : Nat) : Except String (List Nat) :=
  let hexStr := if encryptedMessage.take 2 = [48, 120] then encryptedMessage.drop 2
                else encryptedMessage
  match hexDecode hexStr with
  | none => .error "Decryption failed: malformed hex input"
  | some combined =>
    let ds := cbcDec D key (combined.take 16) (combined.drop 16)
    let plaintext := ds.take (ds.length - lastByte ds)
    if utf8Valid plaintext = false then
      .error "Decryption failed: Malformed UTF-8 data"
    else if plaintext = [] then
      .error "Decryption failed: Decryption produced empty result"
    else .ok plaintext

end EncryptionModule

/-- The trivial block cipher (identity in the block argument), a concrete
instance of the abstract AES parameter used for closed evaluations: the
behaviour exhibited below is independent of the cipher. -/
def idCipher : Nat → List Nat → List Nat := fun _ b => b

/-- C1 counterexample: the round-trip claim quantifies over every plaintext
string, but decryptMessage rejects an empty decrypted plaintext (the code
throws Decryption produced empty result on a falsy string), so for the empty
message the round trip returns an error instead of the message. -/
theorem roundtrip_fails_on_empty_message :
    EncryptionModule.decryptMessage idCipher
        (EncryptionModule.encryptMessage idCipher [] 0 (List.replicate 16 0)) 0 =
      .error "Decryption failed: Decryption produced empty result" ∧
    EncryptionModule.decryptMessage idCipher
        (EncryptionModule.encryptMessage idCipher [] 0 (List.replicate 16 0)) 0 ≠
      .ok [] := by
  have h1 : EncryptionModule.decryptMessage idCipher
      (EncryptionModule.encryptMessage idCipher [] 0 (List.replicate 16 0)) 0 =
      .error "Decryption failed: Decryption produced empty result" := rfl
  exact ⟨h1, by rw [h1]; simp⟩

namespace EncryptionModule

theorem zipXor_length_eq (a b : List Nat) (h : a.length = b.length) :
    (zipXor a b).length = a.length := by
  simp [zipXor]
  omega

theorem zipXor_lt : ∀ (a b : List Nat), (∀ x ∈ a, x < 256) → (∀ x ∈ b, x < 256) →
    ∀ x ∈ zipXor a b, x < 256
  | [], _, _, _ => by simp [zipXor]
  | _ :: _, [], _, _ => by simp [zipXor]
  | x :: xs, y :: ys, ha, hb => by
    intro z hz
    simp only [zipXor, List.zipWith_cons_cons, List.mem_cons] at hz
    rcases hz with hz | hz
    · subst hz
      have hx := ha x (List.mem_cons_self x xs)
      have hy := hb y (List.mem_cons_self y ys)
      have h256 : (256 : Nat) = 2 ^ 8 := rfl
      rw [h256] at hx hy ⊢
      exact Nat.xor_lt_two_pow hx hy
    · exact zipXor_lt xs ys (fun w hw => ha w (List.mem_cons_of_mem x hw))
        (fun w hw => hb w (List.mem_cons_of_mem y hw)) z hz

theorem zipXor_cancel : ∀ (a b : List Nat), a.length = b.length →
    zipXor (zipXor a b) b = a
  | [], [], _ => rfl
  | [], _ :: _, h => by simp at h
  | _ :: _, [], h => by simp at h
  | x :: xs, y :: ys, h => by
    simp only [zipXor, List.zipWith_cons_cons]
    rw [Nat.xor_assoc, Nat.xor_self, Nat.xor_zero]
    have ih := zipXor_cancel xs ys (by simp at h; omega)
    simp only [zipXor] at ih
    rw [ih]

theorem take_append_len {α : Type} : ∀ (l1 l2 : List α), (l1 ++ l2).take l1.length = l1
  | [], _ => rfl
  | x :: xs, l2 => by
    simp only [List.cons_append, List.length_cons, List.take_succ_cons]
    rw [take_append_len xs l2]

theorem drop_append_len {α : Type} : ∀ (l1 l2 : List α), (l1 ++ l2).drop l1.length = l2
  | [], _ => rfl
  | x :: xs, l2 => by
    simp only [List.cons_append, List.length_cons, List.drop_succ_cons]
    rw [drop_append_len xs l2]

theorem take_append_of_length {α : Type} (l1 l2 : List α) (n : Nat)
    (h : l1.length = n) : (l1 ++ l2).take n = l1 := by
  subst h; exact take_append_len l1 l2

theorem drop_append_of_length {α : Type} (l1 l2 : List α) (n : Nat)
    (h : l1.length = n) : (l1 ++ l2).drop n = l2 := by
  subst h; exact drop_append_len l1 l2

theorem lastByte_append_singleton : ∀ (l : List Nat) (a : Nat), lastByte (l ++ [a]) = a
  | [], _ => rfl
  | [_], _ => rfl
  | _ :: c :: l, a => lastByte_append_singleton (c :: l) a

theorem lastByte_append_replicate (bs : List Nat) (n v : Nat) (h : 0 < n) :
    lastByte (bs ++ List.replicate n v) = v := by
  cases n with
  | zero => omega
  | succ m =>
    rw [List.replicate_succ', ← List.append_assoc, lastByte_append_singleton]

theorem hexDigVal_hexCharL : ∀ d, d < 16 → hexDigVal (hexCharL d) = some d := by decide

theorem hexDecode_hexEncode : ∀ (bs : List Nat), (∀ x ∈ bs, x < 256) →
    hexDecode (hexEncode bs) = some bs
  | [], _ => rfl
  | b :: bs, h => by
    have hb := h b (List.mem_cons_self b bs)
    have ih := hexDecode_hexEncode bs (fun x hx => h x (List.mem_cons_of_mem b hx))
    simp only [hexEncode, hexDecode, hexDigVal_hexCharL (b / 16) (by omega),
      hexDigVal_hexCharL (b % 16) (by omega), ih]
    have hbe : b / 16 * 16 + b % 16 = b := by omega
    rw [hbe]

theorem concatBlocks_lt (blks : List (List Nat))
    (h : ∀ b ∈ blks, ∀ x ∈ b, x < 256) : ∀ x ∈ concatBlocks blks, x < 256 := by
  induction blks with
  | nil => simp [concatBlocks]
  | cons b bs ih =>
    intro x hx
    simp only [concatBlocks, List.mem_append] at hx
    rcases hx with hx | hx
    · exact h b (List.mem_cons_self b bs) x hx
    · exact ih (fun c hc => h c (List.mem_cons_of_mem b hc)) x hx

theorem chunk16_spec (fuel : Nat) : ∀ (bs : List Nat), bs.length ≤ fuel →
    16 ∣ bs.length → (∀ x ∈ bs, x < 256) →
    (∀ blk ∈ chunk16 fuel bs, blk.length = 16 ∧ ∀ x ∈ blk, x < 256) ∧
      concatBlocks (chunk16 fuel bs) = bs := by
  induction fuel with
  | zero =>
    intro bs h _ _
    have hbs : bs = [] := List.eq_nil_of_length_eq_zero (by omega)
    subst hbs
    exact ⟨by simp [chunk16], rfl⟩
  | succ f ih =>
    intro bs h hd hb
    cases bs with
    | nil => exact ⟨by simp [chunk16], rfl⟩
    | cons x xs =>
      have hpos : 0 < (x :: xs).length := by simp
      have hlen : 16 ≤ (x :: xs).length := by omega
      have htl : ((x :: xs).take 16).length = 16 := by
        rw [List.length_take]; omega
      have hdl : ((x :: xs).drop 16).length = (x :: xs).length - 16 := by
        rw [List.length_drop]
      obtain ⟨ih1, ih2⟩ := ih ((x :: xs).drop 16) (by omega) (by omega)
        (fun z hz => hb z (List.drop_subset 16 (x :: xs) hz))
      refine ⟨?_, ?_⟩
      · intro blk hblk
        rcases List.mem_cons.mp hblk with hblk | hblk
        · subst hblk
          exact ⟨htl, fun z hz => hb z (List.take_subset 16 (x :: xs) hz)⟩
        · exact ih1 blk hblk
      · show (x :: xs).take 16 ++ concatBlocks (chunk16 f ((x :: xs).drop 16)) = x :: xs
        rw [ih2, List.take_append_drop]

theorem chunk16_concat : ∀ (blks : List (List Nat)) (fuel : Nat),
    (∀ b ∈ blks, b.length = 16) → (concatBlocks blks).length ≤ fuel →
    chunk16 fuel (concatBlocks blks) = blks
  | [], fuel, _, _ => by cases fuel <;> rfl
  | b :: blks, fuel, hb, hf => by
    have hblen : b.length = 16 := hb b (List.mem_cons_self _ _)
    have hcb : (concatBlocks (b :: blks)).length =
        16 + (concatBlocks blks).length := by
      simp [concatBlocks, hblen]
    cases fuel with
    | zero => omega
    | succ f =>
      obtain ⟨y, ys, hbys⟩ : ∃ y ys, b = y :: ys := by
        cases b with
        | nil => simp at hblen
        | cons y ys => exact ⟨y, ys, rfl⟩
      show chunk16 (f + 1) (b ++ concatBlocks blks) = b :: blks
      subst hbys
      show ((y :: ys) ++ concatBlocks blks).take 16 ::
          chunk16 f (((y :: ys) ++ concatBlocks blks).drop 16) = (y :: ys) :: blks
      rw [take_append_of_length _ _ 16 hblen, drop_append_of_length _ _ 16 hblen,
        chunk16_concat blks f (fun c hc => hb c (List.mem_cons_of_mem _ hc)) (by omega)]

theorem cbcEncBlocks_props (E : Nat → List Nat → List Nat) (key : Nat)
    (hE : ∀ b, b.length = 16 → (∀ x ∈ b, x < 256) →
      (E key b).length = 16 ∧ (∀ x ∈ E key b, x < 256)) :
    ∀ (blks : List (List Nat)) (prev : List Nat),
      (∀ b ∈ blks, b.length = 16 ∧ ∀ x ∈ b, x < 256) →
      prev.length = 16 → (∀ x ∈ prev, x < 256) →
      ∀ c ∈ cbcEncBlocks E key prev blks, c.length = 16 ∧ ∀ x ∈ c, x < 256
  | [], prev, _, _, _ => by simp [cbcEncBlocks]
  | blk :: blks, prev, hblks, hp, hpb => by
    obtain ⟨hbl, hbb⟩ := hblks blk (List.mem_cons_self _ _)
    have hz : (zipXor blk prev).length = 16 := by
      rw [zipXor_length_eq blk prev (by omega)]; exact hbl
    have hzb := zipXor_lt blk prev hbb hpb
    obtain ⟨hc1, hc2⟩ := hE _ hz hzb
    intro c hc
    simp only [cbcEncBlocks, List.mem_cons] at hc
    rcases hc with hc | hc
    · subst hc; exact ⟨hc1, hc2⟩
    · exact cbcEncBlocks_props E key hE blks _
        (fun b hb => hblks b (List.mem_cons_of_mem _ hb)) hc1 hc2 c hc

theorem cbcDecBlocks_cbcEncBlocks (E D : Nat → List Nat → List Nat) (key : Nat)
    (hE : ∀ b, b.length = 16 → (∀ x ∈ b, x < 256) →
      (E key b).length = 16 ∧ (∀ x ∈ E key b, x < 256) ∧ D key (E key b) = b) :
    ∀ (blks : List (List Nat)) (prev : List Nat),
      (∀ b ∈ blks, b.length = 16 ∧ ∀ x ∈ b, x < 256) →
      prev.length = 16 → (∀ x ∈ prev, x < 256) →
      cbcDecBlocks D key prev (cbcEncBlocks E key prev blks) = blks
  | [], _, _, _, _ => rfl
  | blk :: blks, prev, hblks, hp, hpb => by
    obtain ⟨hbl, hbb⟩ := hblks blk (List.mem_cons_self _ _)
    have hz : (zipXor blk prev).length = 16 := by
      rw [zipXor_length_eq blk prev (by omega)]; exact hbl
    have hzb := zipXor_lt blk prev hbb hpb
    obtain ⟨hc1, hc2, hc3⟩ := hE _ hz hzb
    simp only [cbcEncBlocks, cbcDecBlocks]
    rw [hc3, zipXor_cancel blk prev (by omega),
      cbcDecBlocks_cbcEncBlocks E D key hE blks _
        (fun b hb => hblks b (List.mem_cons_of_mem _ hb)) hc1 hc2]

theorem pad16_length (bs : List Nat) :
    (pad16 bs).length = bs.length + (16 - bs.length % 16) := by
  simp [pad16]

theorem pad16_dvd (bs : List Nat) : 16 ∣ (pad16 bs).length := by
  rw [pad16_length]; omega

theorem pad16_lt (bs : List Nat) (h : ∀ x ∈ bs, x < 256) :
    ∀ x ∈ pad16 bs, x < 256 := by
  intro x hx
  simp only [pad16, List.mem_append] at hx
  rcases hx with hx | hx
  · exact h x hx
  · have := List.eq_of_mem_replicate hx
    omega

theorem lastByte_pad16 (bs : List Nat) :
    lastByte (pad16 bs) = 16 - bs.length % 16 := by
  apply lastByte_append_replicate
  omega

end EncryptionModule

namespace EncryptionModule

theorem decryptMessage_prefix_eq (D : Nat → List Nat → List Nat) (key : Nat)
    (bs combined : List Nat) (h : hexDecode bs = some combined) :
    decryptMessage D (48 :: 120 :: bs) key =
      (let ds := cbcDec D key (combined.take 16) (combined.drop 16)
       let plaintext := ds.take (ds.length - lastByte ds)
       if utf8Valid plaintext = false then
         Except.error "Decryption failed: Malformed UTF-8 data"
       else if plaintext = [] then
         Except.error "Decryption failed: Decryption produced empty result"
       else Except.ok plaintext) := by
  show (match hexDecode bs with
        | none =>
          (Except.error "Decryption failed: malformed hex input" :
            Except String (List Nat))
        | some combined =>
          let ds := cbcDec D key (combined.take 16) (combined.drop 16)
          let plaintext := ds.take (ds.length - lastByte ds)
          if utf8Valid plaintext = false then
            Except.error "Decryption failed: Malformed UTF-8 data"
          else if plaintext = [] then
            Except.error "Decryption failed: Decryption produced empty result"
          else Except.ok plaintext) = _
  rw [h]

/-- C1 amended: for every nonempty plaintext (a valid UTF-8 byte sequence)
and every key, with the AES block cipher and its inverse as abstract
parameters, decrypting the result of encrypting the plaintext under the key
returns exactly the plaintext.  The claim as stated fails only for the empty
plaintext, which decryptMessage rejects. -/
theorem decryptMessage_encryptMessage (E D : Nat → List Nat → List Nat)
    (key : Nat) (message iv : List Nat)
    (hE : ∀ b, b.length = 16 → (∀ x ∈ b, x < 256) →
      (E key b).length = 16 ∧ (∀ x ∈ E key b, x < 256) ∧ D key (E key b) = b)
    (hmsg : ∀ x ∈ message, x < 256) (hne : message ≠ [])
    (hval : utf8Valid message = true)
    (hiv : iv.length = 16) (hivb : ∀ x ∈ iv, x < 256) :
    decryptMessage D (encryptMessage E message key iv) key = .ok message := by
  have hE' : ∀ b, b.length = 16 → (∀ x ∈ b, x < 256) →
      (E key b).length = 16 ∧ (∀ x ∈ E key b, x < 256) :=
    fun b h1 h2 => ⟨(hE b h1 h2).1, (hE b h1 h2).2.1⟩
  obtain ⟨hchunks, hconcat⟩ := chunk16_spec (pad16 message).length (pad16 message)
    le_rfl (pad16_dvd message) (pad16_lt message hmsg)
  have hctblocks := cbcEncBlocks_props E key hE'
    (chunk16 (pad16 message).length (pad16 message)) iv hchunks hiv hivb
  have hctbytes : ∀ x ∈ cbcEnc E key iv (pad16 message), x < 256 :=
    concatBlocks_lt _ (fun b hb => (hctblocks b hb).2)
  have hcomb : ∀ x ∈ iv ++ cbcEnc E key iv (pad16 message), x < 256 := by
    intro x hx
    rcases List.mem_append.mp hx with hx | hx
    · exact hivb x hx
    · exact hctbytes x hx
  have hdec := hexDecode_hexEncode (iv ++ cbcEnc E key iv (pad16 message)) hcomb
  have hchunkct : chunk16 (cbcEnc E key iv (pad16 message)).length
      (cbcEnc E key iv (pad16 message)) =
      cbcEncBlocks E key iv (chunk16 (pad16 message).length (pad16 message)) :=
    chunk16_concat _ _ (fun b hb => (hctblocks b hb).1) le_rfl
  have hds : cbcDec D key iv (cbcEnc E key iv (pad16 message)) = pad16 message := by
    rw [cbcDec, hchunkct,
      cbcDecBlocks_cbcEncBlocks E D key hE _ iv hchunks hiv hivb, hconcat]
  rw [encryptMessage, decryptMessage_prefix_eq D key _ _ hdec]
  simp only [take_append_of_length iv _ 16 hiv, drop_append_of_length iv _ 16 hiv,
    hds, lastByte_pad16, pad16_length]
  have hmlen : message.length + (16 - message.length % 16) -
      (16 - message.length % 16) = message.length := by omega
  rw [hmlen, pad16, take_append_of_length message _ message.length rfl, hval]
  simp [hne]

end EncryptionModule

/-- Witness for the amended C1 round trip at the concrete nonempty message
[104, 105] (the UTF-8 bytes of hi), key 0, all-zero IV, and the identity
block cipher instantiating the abstract AES parameter. -/
theorem decryptMessage_encryptMessage_witness :
    EncryptionModule.decryptMessage idCipher
        (EncryptionModule.encryptMessage idCipher [104, 105] 0 (List.replicate 16 0)) 0 =
      .ok [104, 105] :=
  EncryptionModule.decryptMessage_encryptMessage idCipher idCipher 0 [104, 105]
    (List.replicate 16 0)
    (fun b h1 h2 => ⟨h1, h2, rfl⟩)
    (by decide) (by decide) (by decide) (by decide) (by decide)

/-! ## KeyManager dialogue key cache

The keyCache field of the KeyManager is a JavaScript Map from dialogue
address to bigint key, modelled as an association list with set-replace
semantics; the setTimeout expiry scheduled by cacheDialogueKey is modelled by
the separate deletion it performs when it fires. -/

namespace KeyManager

/-- Map.prototype.get, returning none for a missing key. -/
def cacheLookup : List (Nat × Nat) → Nat → Option Nat
  | [], _ => none
  | (k, v) :: rest, d => if k = d then some v else cacheLookup rest d

/-- Map.prototype.set: replace an existing entry or append a new one. -/
def cacheSet : List (Nat × Nat) → Nat → Nat → List (Nat × Nat)
  | [], d, v => [(d, v)]
  | (k, w) :: rest, d, v =>
    if k = d then (d, v) :: rest else (k, w) :: cacheSet rest d v

/-- The cacheDialogueKey function of the KeyManager: store the key under the
dialogue address (and schedule the deletion below after cacheTTL). -/
def cacheDialogueKey (cache : List (Nat × Nat)) (dialogueAddress key : Nat) :
    List (Nat × Nat) :=
  cacheSet cache dialogueAddress key

/-- The deletion performed by the setTimeout callback when the TTL expires. -/
def expireDialogueKey : List (Nat × Nat) → Nat → List (Nat × Nat)
  | [], _ => []
  | (k, v) :: rest, d =>
    if k = d then rest else (k, v) :: expireDialogueKey rest d

/-- The getCachedDialogueKey function of the KeyManager: the source returns
this.keyCache.get(dialogueAddress) || null, so a present entry whose value is
the falsy bigint 0 yields null exactly like a missing entry. -/
def getCachedDialogueKey (cache : List (Nat × Nat)) (dialogueAddress : Nat) :
    Option Nat :=
  match cacheLookup cache dialogueAddress with
  | none => none
  | some k => if k = 0 then none else some k

theorem cacheLookup_cacheSet : ∀ (c : List (Nat × Nat)) (d v : Nat),
    cacheLookup (cacheSet c d v) d = some v
  | [], d, v => by simp [cacheSet, cacheLookup]
  | (k, w) :: rest, d, v => by
    by_cases h : k = d
    · simp [cacheSet, h, cacheLookup]
    · simp [cacheSet, h, cacheLookup, cacheLookup_cacheSet rest d v]

end KeyManager

/-- C9: caching the key 0 for a dialogue address leaves an entry in the cache
(the lookup finds it), yet getCachedDialogueKey returns none for it, exactly
as for a missing entry; caching any nonzero key makes getCachedDialogueKey
return that key (until the TTL deletion fires, which is a separate event in
the model). -/
theorem getCachedDialogueKey_zero_indistinguishable
    (cache : List (Nat × Nat)) (d : Nat) :
    KeyManager.cacheLookup (KeyManager.cacheDialogueKey cache d 0) d = some 0 ∧
    KeyManager.getCachedDialogueKey (KeyManager.cacheDialogueKey cache d 0) d = none ∧
    ∀ k, k ≠ 0 →
      KeyManager.getCachedDialogueKey (KeyManager.cacheDialogueKey cache d k) d = some k := by
  refine ⟨KeyManager.cacheLookup_cacheSet cache d 0, ?_, ?_⟩
  · simp [KeyManager.getCachedDialogueKey, KeyManager.cacheDialogueKey,
      KeyManager.cacheLookup_cacheSet]
  · intro k hk
    simp [KeyManager.getCachedDialogueKey, KeyManager.cacheDialogueKey,
      KeyManager.cacheLookup_cacheSet, hk]

/-- Witness for C9 at the empty cache, dialogue address 1, nonzero key 2. -/
theorem getCachedDialogueKey_zero_indistinguishable_witness :
    KeyManager.cacheLookup (KeyManager.cacheDialogueKey [] 1 0) 1 = some 0 ∧
    KeyManager.getCachedDialogueKey (KeyManager.cacheDialogueKey [] 1 0) 1 = none ∧
    KeyManager.getCachedDialogueKey (KeyManager.cacheDialogueKey [] 1 2) 1 = some 2 := by
  obtain ⟨h1, h2, h3⟩ := getCachedDialogueKey_zero_indistinguishable [] 1
  exact ⟨h1, h2, h3 2 (by decide)⟩

/-! ## The PrivateMsg contract state

The contract storage: the dialogue message lists, the per-user dialogue
address lists, the confidential dialogue keys (euint256 handles, 0 for an
unset slot, as Solidity mappings default to zero), the registered password
addresses (0 for unregistered), together with the FHE access-control list
built up by FHE.allow and FHE.allowThis (pairs of key handle and the address
granted read access; selfAddr is the contract's own address for allowThis). -/

/-- One stored message (the MSG struct of the contract). -/
structure MSGrec where
  sender : Nat
  recipient : Nat
  msgContent : List Nat
  time : Nat

/-- Full storage of the PrivateMsg contract plus the FHE access-control
list. -/
structure ChainState where
  dialogue : Nat → List MSGrec
  userMsg : Nat → List Nat
  dialoguePrivateKeys : Nat → Nat
  userList : Nat → Nat
  acl : List (Nat × Nat)
  selfAddr : Nat

/-- Pointwise update of a mapping. -/
def fnUpdate {α : Type} (f : Nat → α) (k : Nat) (v : α) : Nat → α :=
  fun x => if x = k then v else f x

namespace PrivateMsg

/-- The getUser view of the contract. -/
def getUser (s : ChainState) (user : Nat) : Nat := s.userList user

/-- The register function of the contract: require the account unbound, bind
it to the password address, and grant that password address read access to
the dialogue key of every dialogue address recorded for the account; a failed
require is a revert, modelled as an error with the revert reason. -/
def register (s : ChainState) (sender passwordAddress : Nat) :
    Except String ChainState :=
  if s.userList sender ≠ 0 then .error "Already registered"
  else .ok { s with
    userList := fnUpdate s.userList sender passwordAddress
    acl := s.acl ++ (s.userMsg sender).map
      (fun d => (s.dialoguePrivateKeys d, passwordAddress)) }

/-- First phase of sendMsg: when the dialogue message list is empty, the
external encrypted key is converted with FHE.fromExternal (an abstract
parameter for the oracle), granted to the contract itself (FHE.allowThis)
and to the password addresses of both participants when registered
(FHE.allow), and stored as the canonical key; otherwise nothing happens. -/
def storeKeyIfFirst (s : ChainState) (dialogueAddress sender toAddr : Nat)
    (extPrivateKey inputProof : Nat) (fromExternal : Nat → Nat → Nat) :
    ChainState :=
  if (s.dialogue dialogueAddress).length = 0 then
    let privateKey := fromExternal extPrivateKey inputProof
    { s with
      dialoguePrivateKeys :=
        fnUpdate s.dialoguePrivateKeys dialogueAddress privateKey
      acl := s.acl ++ [(privateKey, s.selfAddr)] ++
        (if s.userList sender ≠ 0 then [(privateKey, s.userList sender)] else []) ++
        (if s.userList toAddr ≠ 0 then [(privateKey, s.userList toAddr)] else []) }
  else s

/-- Second phase of sendMsg: push the message record onto the dialogue. -/
def appendMsg (s : ChainState) (dialogueAddress sender toAddr : Nat)
    (msgContent : List Nat) (time : Nat) : ChainState :=
  { s with
    dialogue := fnUpdate s.dialogue dialogueAddress
      (s.dialogue dialogueAddress ++ [⟨sender, toAddr, msgContent, time⟩]) }

/-- Last phase of sendMsg, once per participant: push the dialogue address
onto the user record unless the given membership flag was set. -/
def recordDialogue (s : ChainState) (user dialogueAddress : Nat) (has : Bool) :
    ChainState :=
  if has then s
  else { s with
    userMsg := fnUpdate s.userMsg user (s.userMsg user ++ [dialogueAddress]) }

/-- The sendMsg function of the contract: store the key when this is the
first message of the pair, append the message, then record the dialogue
address for sender and recipient if absent (both membership tests read the
lists before either push, as the source copies both arrays to memory
first). -/
def sendMsg (s : ChainState) (sender toAddr extPrivateKey : Nat)
    (msgContent : List Nat) (inputProof time : Nat)
    (fromExternal : Nat → Nat → Nat) : ChainState :=
  let dialogueAddress := getMsgID sender toAddr
  let s2 := appendMsg
    (storeKeyIfFirst s dialogueAddress sender toAddr extPrivateKey inputProof
      fromExternal)
    dialogueAddress sender toAddr msgContent time
  let hasSenderAddress := (s2.userMsg sender).contains dialogueAddress
  let hasToAddress := (s2.userMsg toAddr).contains dialogueAddress
  recordDialogue (recordDialogue s2 sender dialogueAddress hasSenderAddress)
    toAddr dialogueAddress hasToAddress

/-- The getMsgDetail view: the stored key handle and the message list of one
dialogue address. -/
def getMsgDetail (s : ChainState) (dialogueAddress : Nat) : Nat × List MSGrec :=
  (s.dialoguePrivateKeys dialogueAddress, s.dialogue dialogueAddress)

end PrivateMsg


theorem contains_mem {l : List Nat} {a : Nat} (h : l.contains a) : a ∈ l := by
  simpa using h

namespace PrivateMsg

theorem storeKeyIfFirst_userMsg (s : ChainState) (d sender toAddr ek pf : Nat)
    (fx : Nat → Nat → Nat) :
    (storeKeyIfFirst s d sender toAddr ek pf fx).userMsg = s.userMsg := by
  rw [storeKeyIfFirst]; split <;> rfl

theorem storeKeyIfFirst_userList (s : ChainState) (d sender toAddr ek pf : Nat)
    (fx : Nat → Nat → Nat) :
    (storeKeyIfFirst s d sender toAddr ek pf fx).userList = s.userList := by
  rw [storeKeyIfFirst]; split <;> rfl

theorem storeKeyIfFirst_dialogue (s : ChainState) (d sender toAddr ek pf : Nat)
    (fx : Nat → Nat → Nat) :
    (storeKeyIfFirst s d sender toAddr ek pf fx).dialogue = s.dialogue := by
  rw [storeKeyIfFirst]; split <;> rfl

theorem storeKeyIfFirst_keys_nonempty (s : ChainState)
    (d sender toAddr ek pf : Nat) (fx : Nat → Nat → Nat)
    (h : (s.dialogue d).length ≠ 0) :
    (storeKeyIfFirst s d sender toAddr ek pf fx).dialoguePrivateKeys =
      s.dialoguePrivateKeys := by
  rw [storeKeyIfFirst, if_neg h]

theorem storeKeyIfFirst_keys_first (s : ChainState)
    (d sender toAddr ek pf : Nat) (fx : Nat → Nat → Nat)
    (h : (s.dialogue d).length = 0) :
    (storeKeyIfFirst s d sender toAddr ek pf fx).dialoguePrivateKeys d =
      fx ek pf := by
  rw [storeKeyIfFirst, if_pos h]; simp [fnUpdate]

theorem appendMsg_userMsg (s : ChainState) (d sender toAddr : Nat)
    (c : List Nat) (t : Nat) :
    (appendMsg s d sender toAddr c t).userMsg = s.userMsg := rfl

theorem appendMsg_userList (s : ChainState) (d sender toAddr : Nat)
    (c : List Nat) (t : Nat) :
    (appendMsg s d sender toAddr c t).userList = s.userList := rfl

theorem appendMsg_keys (s : ChainState) (d sender toAddr : Nat)
    (c : List Nat) (t : Nat) :
    (appendMsg s d sender toAddr c t).dialoguePrivateKeys =
      s.dialoguePrivateKeys := rfl

theorem appendMsg_dialogue_self (s : ChainState) (d sender toAddr : Nat)
    (c : List Nat) (t : Nat) :
    (appendMsg s d sender toAddr c t).dialogue d =
      s.dialogue d ++ [⟨sender, toAddr, c, t⟩] := by
  simp [appendMsg, fnUpdate]

theorem recordDialogue_userList (s : ChainState) (u d : Nat) (b : Bool) :
    (recordDialogue s u d b).userList = s.userList := by
  rw [recordDialogue]; split <;> rfl

theorem recordDialogue_keys (s : ChainState) (u d : Nat) (b : Bool) :
    (recordDialogue s u d b).dialoguePrivateKeys = s.dialoguePrivateKeys := by
  rw [recordDialogue]; split <;> rfl

theorem recordDialogue_dialogue (s : ChainState) (u d : Nat) (b : Bool) :
    (recordDialogue s u d b).dialogue = s.dialogue := by
  rw [recordDialogue]; split <;> rfl

theorem recordDialogue_mem_self (s : ChainState) (u d : Nat) :
    d ∈ (recordDialogue s u d ((s.userMsg u).contains d)).userMsg u := by
  by_cases h : (s.userMsg u).contains d
  · simp only [recordDialogue, h, if_pos]
    exact contains_mem h
  · simp only [recordDialogue]
    rw [if_neg (by simpa using h)]
    simp [fnUpdate]

theorem recordDialogue_mem_mono (s : ChainState) (u u' d d' : Nat) (b : Bool)
    (h : d' ∈ s.userMsg u') :
    d' ∈ (recordDialogue s u d b).userMsg u' := by
  rw [recordDialogue]
  split
  · exact h
  · show d' ∈ fnUpdate s.userMsg u (s.userMsg u ++ [d]) u'
    rw [fnUpdate]
    by_cases he : u' = u
    · subst he
      simp only [if_pos rfl]
      exact List.mem_append_left _ h
    · rw [if_neg he]
      exact h

theorem sendMsg_userList (s : ChainState) (sender toAddr extKey : Nat)
    (msgContent : List Nat) (proof time : Nat) (fromExternal : Nat → Nat → Nat) :
    (sendMsg s sender toAddr extKey msgContent proof time
      fromExternal).userList = s.userList := by
  simp only [sendMsg]
  rw [recordDialogue_userList, recordDialogue_userList, appendMsg_userList,
    storeKeyIfFirst_userList]

theorem sendMsg_userMsg_sender_mem (s : ChainState) (sender toAddr extKey : Nat)
    (msgContent : List Nat) (proof time : Nat) (fromExternal : Nat → Nat → Nat) :
    getMsgID sender toAddr ∈
      (sendMsg s sender toAddr extKey msgContent proof time
        fromExternal).userMsg sender := by
  simp only [sendMsg]
  exact recordDialogue_mem_mono _ _ _ _ _ _ (recordDialogue_mem_self _ _ _)

/-- Frame lemma: when the dialogue is already nonempty, sendMsg leaves the
stored key handle of that conversation unchanged. -/
theorem sendMsg_keys_frame (s : ChainState) (sender toAddr extKey : Nat)
    (msgContent : List Nat) (proof time : Nat) (fromExternal : Nat → Nat → Nat)
    (h : (s.dialogue (getMsgID sender toAddr)).length ≠ 0) :
    (sendMsg s sender toAddr extKey msgContent proof time
        fromExternal).dialoguePrivateKeys (getMsgID sender toAddr) =
      s.dialoguePrivateKeys (getMsgID sender toAddr) := by
  simp only [sendMsg]
  rw [recordDialogue_keys, recordDialogue_keys, appendMsg_keys,
    storeKeyIfFirst_keys_nonempty _ _ _ _ _ _ _ h]

/-- sendMsg always appends the new message record to the dialogue. -/
theorem sendMsg_dialogue_append (s : ChainState) (sender toAddr extKey : Nat)
    (msgContent : List Nat) (proof time : Nat)
    (fromExternal : Nat → Nat → Nat) :
    (sendMsg s sender toAddr extKey msgContent proof time
        fromExternal).dialogue (getMsgID sender toAddr) =
      s.dialogue (getMsgID sender toAddr) ++
        [⟨sender, toAddr, msgContent, time⟩] := by
  simp only [sendMsg]
  rw [recordDialogue_dialogue, recordDialogue_dialogue, appendMsg_dialogue_self,
    storeKeyIfFirst_dialogue]

end PrivateMsg

/-- C5: a sendMsg call on a conversation whose message list is nonempty
leaves the stored dialoguePrivateKeys entry for that conversation id
unchanged (the submitted key is stored as canonical only when the per-pair
message list is empty, on the first message), while the new message is still
appended to the dialogue. -/
theorem sendMsg_nonempty_preserves_key (s : ChainState)
    (sender toAddr extKey : Nat) (msgContent : List Nat) (proof time : Nat)
    (fromExternal : Nat → Nat → Nat)
    (h : (s.dialogue (PrivateMsg.getMsgID sender toAddr)).length ≠ 0) :
    (PrivateMsg.sendMsg s sender toAddr extKey msgContent proof time
        fromExternal).dialoguePrivateKeys (PrivateMsg.getMsgID sender toAddr) =
      s.dialoguePrivateKeys (PrivateMsg.getMsgID sender toAddr) ∧
    (PrivateMsg.sendMsg s sender toAddr extKey msgContent proof time
        fromExternal).dialogue (PrivateMsg.getMsgID sender toAddr) =
      s.dialogue (PrivateMsg.getMsgID sender toAddr) ++
        [⟨sender, toAddr, msgContent, time⟩] :=
  ⟨PrivateMsg.sendMsg_keys_frame s sender toAddr extKey msgContent proof time
      fromExternal h,
   PrivateMsg.sendMsg_dialogue_append s sender toAddr extKey msgContent proof
      time fromExternal⟩

/-- A chain state in which every dialogue already holds one message, used to
instantiate theorems about non-first sends. -/
def sampleBusyState : ChainState where
  dialogue := fun _ => [⟨1, 2, [10], 0⟩]
  userMsg := fun _ => []
  dialoguePrivateKeys := fun _ => 7
  userList := fun _ => 0
  acl := []
  selfAddr := 99

/-- Witness for C5 at a concrete state whose dialogues are all nonempty. -/
theorem sendMsg_nonempty_preserves_key_witness :
    (PrivateMsg.sendMsg sampleBusyState 1 2 5 [3] 6 4
        (fun h _ => h)).dialoguePrivateKeys (PrivateMsg.getMsgID 1 2) =
      sampleBusyState.dialoguePrivateKeys (PrivateMsg.getMsgID 1 2) ∧
    (PrivateMsg.sendMsg sampleBusyState 1 2 5 [3] 6 4
        (fun h _ => h)).dialogue (PrivateMsg.getMsgID 1 2) =
      sampleBusyState.dialogue (PrivateMsg.getMsgID 1 2) ++ [⟨1, 2, [3], 4⟩] :=
  sendMsg_nonempty_preserves_key sampleBusyState 1 2 5 [3] 6 4 (fun h _ => h)
    (by simp [sampleBusyState])

/-- C6: on an unregistered account, register binds the account to its
password address and retroactively grants that password address read access
to the conversation key of every dialogue recorded for the account; once
bound (to a nonzero password address) any further register call reverts with
Already registered, so the transition fires at most once; and in particular
an account that sent a message while unregistered can, after registering,
still read the stored key of that conversation (the grant covers it). -/
theorem register_binds_grants_retroactively (s : ChainState)
    (u pw v extKey : Nat) (content : List Nat) (proof time : Nat)
    (fromExt : Nat → Nat → Nat)
    (hu : s.userList u = 0) (hpw : pw ≠ 0) :
    (∃ s', PrivateMsg.register s u pw = .ok s' ∧
      s'.userList u = pw ∧
      (∀ d ∈ s.userMsg u, (s.dialoguePrivateKeys d, pw) ∈ s'.acl) ∧
      ∀ pw2, PrivateMsg.register s' u pw2 = .error "Already registered") ∧
    (∃ s2, PrivateMsg.register
        (PrivateMsg.sendMsg s u v extKey content proof time fromExt) u pw =
          .ok s2 ∧
      ((PrivateMsg.sendMsg s u v extKey content proof time
          fromExt).dialoguePrivateKeys (PrivateMsg.getMsgID u v), pw) ∈
        s2.acl) := by
  have hreg : ∀ t : ChainState, t.userList u = 0 →
      PrivateMsg.register t u pw = .ok { t with
        userList := fnUpdate t.userList u pw
        acl := t.acl ++ (t.userMsg u).map
          (fun d => (t.dialoguePrivateKeys d, pw)) } := by
    intro t ht
    rw [PrivateMsg.register, if_neg (by simp [ht])]
  constructor
  · refine ⟨_, hreg s hu, ?_, ?_, ?_⟩
    · simp [fnUpdate]
    · intro d hd
      exact List.mem_append_right _ (List.mem_map.mpr ⟨d, hd, rfl⟩)
    · intro pw2
      rw [PrivateMsg.register]
      rw [if_pos]
      simp only [fnUpdate, if_pos rfl]
      exact hpw
  · have hu1 : (PrivateMsg.sendMsg s u v extKey content proof time
        fromExt).userList u = 0 := by
      rw [PrivateMsg.sendMsg_userList]; exact hu
    refine ⟨_, hreg _ hu1, ?_⟩
    apply List.mem_append_right
    exact List.mem_map.mpr
      ⟨PrivateMsg.getMsgID u v,
        PrivateMsg.sendMsg_userMsg_sender_mem s u v extKey content proof time
          fromExt, rfl⟩

/-- A chain state with no messages and no registrations. -/
def emptyState : ChainState where
  dialogue := fun _ => []
  userMsg := fun _ => []
  dialoguePrivateKeys := fun _ => 0
  userList := fun _ => 0
  acl := []
  selfAddr := 99

/-- Witness for C6: the Scenario 2 shape, starting from the empty chain with
unregistered account 1, which sends to account 2 and registers afterwards
with password address 5. -/
theorem register_binds_grants_retroactively_witness :
    (∃ s', PrivateMsg.register emptyState 1 5 = .ok s' ∧
      s'.userList 1 = 5 ∧
      (∀ d ∈ emptyState.userMsg 1, (emptyState.dialoguePrivateKeys d, 5) ∈ s'.acl) ∧
      ∀ pw2, PrivateMsg.register s' 1 pw2 = .error "Already registered") ∧
    (∃ s2, PrivateMsg.register
        (PrivateMsg.sendMsg emptyState 1 2 11 [3] 12 4 (fun h _ => h)) 1 5 =
          .ok s2 ∧
      ((PrivateMsg.sendMsg emptyState 1 2 11 [3] 12 4
          (fun h _ => h)).dialoguePrivateKeys (PrivateMsg.getMsgID 1 2), 5) ∈
        s2.acl) :=
  register_binds_grants_retroactively emptyState 1 5 2 11 [3] 12 4
    (fun h _ => h) rfl (by decide)

/-! ## The SDK error model and modules

The ErrorCode enum of types-msg.ts, the PrivateMsgError class carrying a
stable code, and plain JavaScript Error objects carrying only text.  External
capabilities are abstract parameters: walletAddr is the ethers secp256k1
address derivation from a private key, fheDecrypt is the relayer user
decryption (none models a thrown failure), fheEncrypt is
createEncryptedInput, returning a handle and an input proof for a fresh
per-call encryption, and encBody and decBody are the EncryptionModule calls
specialised to a key. -/

/-- The ErrorCode enum of the SDK; note that it has no member for an
already-registered condition. -/
inductive ErrCode
  | NOT_REGISTERED
  | INVALID_PASSWORD
  | DECRYPTION_FAILED
  | DIALOGUE_NOT_FOUND
  | TRANSACTION_FAILED
  | INSUFFICIENT_GAS
  | SDK_NOT_INITIALIZED
deriving DecidableEq

/-- A thrown SDK error: a PrivateMsgError with a stable code, or a plain
JavaScript Error with only text. -/
inductive SdkError
  | privateMsgError (code : ErrCode) (msg : String)
  | jsError (msg : String)
deriving DecidableEq

/-- Observable interactions of the SDK with the contract and the FHE
oracle (used to state in which order reads, decryptions and the transaction
submission happen). -/
inductive SdkOp
  | readMsgDetail (dialogueAddress : Nat)
  | readKeyHandle (dialogueAddress handle : Nat)
  | decryptKeyAttempt (handle : Nat)
  | fheEncryptKey (key : Nat)
  | submitSendMsg (toAddr handle proof : Nat) (content : List Nat)
deriving DecidableEq

namespace AuthModule

/-- The generatePasswordWallet function of the AuthModule: keccak256 of the
lowercased address string concatenated with the password bytes, used as a
secp256k1 private key whose ethers wallet address is the password address;
the curve arithmetic lives in ethers, abstracted as walletAddr. -/
def generatePasswordWallet (walletAddr : Nat → Nat) (userAddress : Nat)
    (password : List Nat) : Nat :=
  walletAddr (keccak256 ((48 :: 120 :: lowerHex40 userAddress) ++ password))

/-- The isRegistered check: getUser different from the zero address. -/
def isRegistered (chain : ChainState) (userAddress : Nat) : Bool :=
  PrivateMsg.getUser chain userAddress != 0

/-- The register function of the AuthModule: reject when the account is
already registered (a plain Error whose text the outer catch wraps as
Registration failed), otherwise derive the password wallet and submit the
register transaction; on success the new chain state and the password
address are returned. -/
def register (walletAddr : Nat → Nat) (chain : ChainState)
    (signerAddress : Nat) (password : List Nat) :
    Except SdkError (ChainState × Nat) :=
  if isRegistered chain signerAddress then
    .error (.jsError "Registration failed: User already registered")
  else
    let pwAddr := generatePasswordWallet walletAddr signerAddress password
    match PrivateMsg.register chain signerAddress pwAddr with
    | .ok chain2 => .ok (chain2, pwAddr)
    | .error e => .error (.jsError ("Registration failed: " ++ e))

/-- The verifyPassword function of the AuthModule: NOT_REGISTERED when no
password address is stored, otherwise compare the derived address with the
stored one. -/
def verifyPassword (walletAddr : Nat → Nat) (chain : ChainState)
    (userAddress : Nat) (password : List Nat) : Except SdkError Bool :=
  if chain.userList userAddress = 0 then
    .error (.privateMsgError .NOT_REGISTERED "User not registered")
  else
    .ok (generatePasswordWallet walletAddr userAddress password ==
      chain.userList userAddress)

end AuthModule

/-- C8: invoking AuthModule.register for an account that is already
registered is rejected (the pre-check throws before any transaction is
submitted, so the chain state is untouched and the stored binding is
intact), and the contract itself reverts any register call for a bound
account with Already registered, leaving storage unchanged (an error result
of the contract model is a revert), so the binding is immutable once set.
The rejection is signalled by the error text, since the ErrorCode enum has
no AlreadyRegistered member. -/
theorem register_already_registered_rejected (walletAddr : Nat → Nat)
    (chain : ChainState) (signer : Nat) (password : List Nat)
    (h : chain.userList signer ≠ 0) :
    AuthModule.register walletAddr chain signer password =
      .error (.jsError "Registration failed: User already registered") ∧
    (∀ pwAddr, PrivateMsg.register chain signer pwAddr =
      .error "Already registered") := by
  constructor
  · rw [AuthModule.register, if_pos]
    simp [AuthModule.isRegistered, PrivateMsg.getUser, h]
  · intro pwAddr
    rw [PrivateMsg.register, if_pos h]

/-- A chain state in which every account is registered with password address
5 (and every dialogue already has one message and stored key handle 7). -/
def busyRegisteredState : ChainState where
  dialogue := fun _ => [⟨1, 2, [10], 0⟩]
  userMsg := fun _ => []
  dialoguePrivateKeys := fun _ => 7
  userList := fun _ => 5
  acl := []
  selfAddr := 99

/-- Witness for C8 on a concrete registered account. -/
theorem register_already_registered_rejected_witness :
    AuthModule.register (fun k => k) busyRegisteredState 1 [2] =
      .error (.jsError "Registration failed: User already registered") ∧
    (∀ pwAddr, PrivateMsg.register busyRegisteredState 1 pwAddr =
      .error "Already registered") :=
  register_already_registered_rejected (fun k => k) busyRegisteredState 1 [2]
    (by simp [busyRegisteredState])

namespace MessageModule

/-- One decrypted message as returned to the caller. -/
structure Message where
  content : String
  encryptedContent : List Nat
  timestamp : Nat
  sender : Nat
  recipient : Nat
deriving DecidableEq

/-- The per-message decryption loop of getMessages: a message whose
decryption fails is replaced by the sentinel content, keeping its
metadata. -/
def decryptAll (decBody : List Nat → Nat → Option String)
    (msgs : List MSGrec) (key : Nat) : List Message :=
  msgs.map fun m =>
    match decBody m.msgContent key with
    | some content => ⟨content, m.msgContent, m.time, m.sender, m.recipient⟩
    | none => ⟨"[Decryption failed]", m.msgContent, m.time, m.sender, m.recipient⟩

/-- The getMessages function of the MessageModule: read getMsgDetail, return
an empty list when no key is stored, otherwise use the cached key if there
is one (without touching the password); on a cache miss derive the password
wallet, verify the password (NOT_REGISTERED and InvalidPassword are raised
here, before any key recovery), then decrypt the dialogue key through the
oracle, cache it, and decrypt the messages with the per-message sentinel.
The result also carries the updated cache and the trace of contract and
oracle interactions. -/
def getMessages (walletAddr : Nat → Nat) (fheDecrypt : Nat → Nat → Option Nat)
    (decBody : List Nat → Nat → Option String)
    (chain : ChainState) (cache : List (Nat × Nat))
    (signerAddress dialogueAddress : Nat) (password : List Nat) :
    Except SdkError (List Message) × List (Nat × Nat) × List SdkOp :=
  let pk := (PrivateMsg.getMsgDetail chain dialogueAddress).1
  let msgs := (PrivateMsg.getMsgDetail chain dialogueAddress).2
  let tr0 := [SdkOp.readMsgDetail dialogueAddress]
  if pk = 0 then (.ok [], cache, tr0)
  else
    match KeyManager.getCachedDialogueKey cache dialogueAddress with
    | some k => (.ok (decryptAll decBody msgs k), cache, tr0)
    | none =>
      let pwAddr := AuthModule.generatePasswordWallet walletAddr signerAddress
        password
      match AuthModule.verifyPassword walletAddr chain signerAddress password with
      | .error e => (.error e, cache, tr0)
      | .ok false =>
        (.error (.privateMsgError .INVALID_PASSWORD "Invalid password"),
          cache, tr0)
      | .ok true =>
        match fheDecrypt pk pwAddr with
        | none =>
          (.error (.jsError
            "Failed to get messages: Failed to decrypt dialogue key"),
            cache, tr0 ++ [SdkOp.decryptKeyAttempt pk])
        | some k =>
          (.ok (decryptAll decBody msgs k),
            KeyManager.cacheDialogueKey cache dialogueAddress k,
            tr0 ++ [SdkOp.decryptKeyAttempt pk])

end MessageModule

/-- C7 counterexample: with a valid cached key for the conversation, a call
to getMessages with a wrong password (the derived password address 0 differs
from the stored address 5) raises no InvalidPassword at all: it returns the
decrypted messages, and the trace shows that no key decryption was attempted
either, so the claim that a wrong password always raises InvalidPassword
before key recovery is false on the cached path. -/
theorem getMessages_cached_ignores_wrong_password :
    MessageModule.getMessages (fun _ => 0) (fun _ _ => some 8)
        (fun _ _ => some "m") busyRegisteredState [(4, 6)] 1 4 [7] =
      (.ok [⟨"m", [10], 0, 1, 2⟩], [(4, 6)], [SdkOp.readMsgDetail 4]) ∧
    AuthModule.generatePasswordWallet (fun _ => 0) 1 [7] ≠
      busyRegisteredState.userList 1 := by
  constructor
  · rfl
  · intro h
    simp [AuthModule.generatePasswordWallet, busyRegisteredState] at h

/-- C7 amended: on a cache miss, getMessages with a wrong password for an
existing conversation and a registered caller raises InvalidPassword before
any key recovery is attempted (the trace contains no decryption attempt);
when a valid cached key exists the password is not consulted at all. -/
theorem getMessages_wrong_password_invalid_first (walletAddr : Nat → Nat)
    (fheDecrypt : Nat → Nat → Option Nat)
    (decBody : List Nat → Nat → Option String)
    (chain : ChainState) (cache : List (Nat × Nat))
    (signer d : Nat) (password : List Nat)
    (hpk : chain.dialoguePrivateKeys d ≠ 0)
    (hmiss : KeyManager.getCachedDialogueKey cache d = none)
    (hreg : chain.userList signer ≠ 0)
    (hwrong : AuthModule.generatePasswordWallet walletAddr signer password ≠
      chain.userList signer) :
    MessageModule.getMessages walletAddr fheDecrypt decBody chain cache signer
        d password =
      (.error (.privateMsgError .INVALID_PASSWORD "Invalid password"),
        cache, [SdkOp.readMsgDetail d]) := by
  have hverify : AuthModule.verifyPassword walletAddr chain signer password =
      .ok false := by
    rw [AuthModule.verifyPassword, if_neg hreg]
    simp [hwrong]
  simp only [MessageModule.getMessages, PrivateMsg.getMsgDetail]
  rw [if_neg hpk, hmiss, hverify]

/-- Witness for the amended C7 at a concrete registered state with an empty
cache and a wrong password. -/
theorem getMessages_wrong_password_invalid_first_witness :
    MessageModule.getMessages (fun _ => 0) (fun _ _ => some 8)
        (fun _ _ => some "m") busyRegisteredState [] 1 4 [7] =
      (.error (.privateMsgError .INVALID_PASSWORD "Invalid password"),
        [], [SdkOp.readMsgDetail 4]) :=
  getMessages_wrong_password_invalid_first (fun _ => 0) (fun _ _ => some 8)
    (fun _ _ => some "m") busyRegisteredState [] 1 4 [7]
    (by simp [busyRegisteredState]) rfl (by simp [busyRegisteredState])
    (by simp [AuthModule.generatePasswordWallet, busyRegisteredState])

namespace MessageModule

/-- The result returned by sendMessage on success: transaction hash,
dialogue address and block number; the type carries no field that could
report a key mismatch. -/
structure SendMessageResult where
  transactionHash : Nat
  dialogueAddress : Nat
  blockNumber : Nat
deriving DecidableEq

/-- The dialogue-key resolution phase of sendMessage: use the explicit
dialogueKey parameter if given; otherwise try the cache; otherwise read the
stored handle from the contract and, when it is nonzero, decrypt it through
the oracle with the password wallet and cache the result, or, when it is
zero, take the freshly generated random key (the genKey argument models the
output of Wallet.createRandom on this call) and cache it. -/
def resolveDialogueKey (walletAddr : Nat → Nat)
    (fheDecrypt : Nat → Nat → Option Nat) (genKey : Nat)
    (chain : ChainState) (cache : List (Nat × Nat))
    (signerAddress dialogueAddress : Nat) (password : List Nat)
    (dialogueKeyParam : Option Nat) :
    Except SdkError Nat × List (Nat × Nat) × List SdkOp :=
  match dialogueKeyParam with
  | some k => (.ok k, cache, [])
  | none =>
    match KeyManager.getCachedDialogueKey cache dialogueAddress with
    | some ck => (.ok ck, cache, [])
    | none =>
      let existingKey := chain.dialoguePrivateKeys dialogueAddress
      if existingKey ≠ 0 then
        match fheDecrypt existingKey
            (AuthModule.generatePasswordWallet walletAddr signerAddress
              password) with
        | none =>
          (.error (.jsError
            "Send message failed: Failed to decrypt dialogue key"), cache,
            [SdkOp.readKeyHandle dialogueAddress existingKey,
             SdkOp.decryptKeyAttempt existingKey])
        | some k =>
          (.ok k, KeyManager.cacheDialogueKey cache dialogueAddress k,
            [SdkOp.readKeyHandle dialogueAddress existingKey,
             SdkOp.decryptKeyAttempt existingKey])
      else
        (.ok genKey, KeyManager.cacheDialogueKey cache dialogueAddress genKey,
          [SdkOp.readKeyHandle dialogueAddress existingKey])

/-- The sendMessage function of the MessageModule: check the sender is
registered, compute the dialogue address with the contract getMsgID, resolve
the dialogue key, encrypt the message body, produce a fresh FHE encryption
of the dialogue key (handle and input proof), and submit the sendMsg
transaction.  The interfere argument is the batch of transactions of other
parties that the ledger orders before ours (identity when there is no
concurrency); after the submission the function returns immediately with
transaction hash, dialogue address and block number.  The result carries the
final chain state, the updated cache and the operation trace. -/
def sendMessage (walletAddr : Nat → Nat)
    (fheDecrypt : Nat → Nat → Option Nat)
    (fheEncrypt : Nat → Nat → Nat → Nat × Nat)
    (encBody : List Nat → Nat → List Nat)
    (genKey nonce txHash blockNumber txTime : Nat)
    (interfere : ChainState → ChainState) (fromExternal : Nat → Nat → Nat)
    (chain : ChainState) (cache : List (Nat × Nat))
    (signerAddress toAddr : Nat) (message password : List Nat)
    (dialogueKeyParam : Option Nat) :
    Except SdkError SendMessageResult × ChainState × List (Nat × Nat) ×
      List SdkOp :=
  if chain.userList signerAddress = 0 then
    (.error (.privateMsgError .NOT_REGISTERED
      "Sender not registered. Call auth.register() first."), chain, cache, [])
  else
    let dialogueAddress := PrivateMsg.getMsgID signerAddress toAddr
    match resolveDialogueKey walletAddr fheDecrypt genKey chain cache
        signerAddress dialogueAddress password dialogueKeyParam with
    | (.error e, cache2, tr) => (.error e, chain, cache2, tr)
    | (.ok key, cache2, tr) =>
      let encryptedContent := encBody message key
      let hp := fheEncrypt key signerAddress nonce
      let chain2 := PrivateMsg.sendMsg (interfere chain) signerAddress toAddr
        hp.1 encryptedContent hp.2 txTime fromExternal
      (.ok ⟨txHash, dialogueAddress, blockNumber⟩, chain2, cache2,
        tr ++ [SdkOp.fheEncryptKey key,
          SdkOp.submitSendMsg toAddr hp.1 hp.2 encryptedContent])

/-- Whether an operation reads the stored key handle from the contract. -/
def isKeyRead : SdkOp → Bool
  | .readKeyHandle _ _ => true
  | _ => false

/-- Whether an operation submits the sendMsg transaction. -/
def isSubmit : SdkOp → Bool
  | .submitSendMsg _ _ _ _ => true
  | _ => false

/-- Whether any read of the stored key handle occurs after a transaction
submission in the trace. -/
def postSubmitReread : List SdkOp → Bool
  | [] => false
  | op :: rest =>
    if isSubmit op then rest.any isKeyRead || postSubmitReread rest
    else postSubmitReread rest

theorem postSubmitReread_of_no_submit : ∀ (tr : List SdkOp),
    (∀ op ∈ tr, isSubmit op = false) → postSubmitReread tr = false
  | [], _ => rfl
  | op :: rest, h => by
    rw [postSubmitReread, if_neg (by simp [h op (List.mem_cons_self _ _)])]
    exact postSubmitReread_of_no_submit rest
      (fun o ho => h o (List.mem_cons_of_mem _ ho))

theorem postSubmitReread_append_last : ∀ (tr : List SdkOp) (s : SdkOp),
    (∀ op ∈ tr, isSubmit op = false) → postSubmitReread (tr ++ [s]) = false
  | [], s, _ => by
    cases hs : isSubmit s <;> simp [postSubmitReread, hs]
  | op :: rest, s, h => by
    rw [List.cons_append, postSubmitReread,
      if_neg (by simp [h op (List.mem_cons_self _ _)])]
    exact postSubmitReread_append_last rest s
      (fun o ho => h o (List.mem_cons_of_mem _ ho))

theorem resolveDialogueKey_no_submit (walletAddr : Nat → Nat)
    (fheDecrypt : Nat → Nat → Option Nat) (genKey : Nat)
    (chain : ChainState) (cache : List (Nat × Nat))
    (signerAddress dialogueAddress : Nat) (password : List Nat)
    (dialogueKeyParam : Option Nat) :
    ∀ op ∈ (resolveDialogueKey walletAddr fheDecrypt genKey chain cache
      signerAddress dialogueAddress password dialogueKeyParam).2.2,
      isSubmit op = false := by
  intro op hop
  rcases dialogueKeyParam with _ | k
  · simp only [resolveDialogueKey] at hop
    rcases hc : KeyManager.getCachedDialogueKey cache dialogueAddress with _ | ck
    · rw [hc] at hop
      simp only [] at hop
      by_cases he : chain.dialoguePrivateKeys dialogueAddress ≠ 0
      · rw [if_pos he] at hop
        rcases hf : fheDecrypt (chain.dialoguePrivateKeys dialogueAddress)
            (AuthModule.generatePasswordWallet walletAddr signerAddress
              password) with _ | k2 <;>
          · rw [hf] at hop
            simp only [List.mem_cons, List.not_mem_nil, or_false] at hop
            rcases hop with hop | hop <;> subst hop <;> rfl
      · rw [if_neg he] at hop
        simp only [List.mem_cons, List.not_mem_nil, or_false] at hop
        subst hop
        rfl
    · rw [hc] at hop
      simp at hop
  · simp only [resolveDialogueKey] at hop
    simp at hop
end MessageModule

/-- A chain state with no messages yet but every account registered with
password address 5, the setting of a first-send race. -/
def registeredEmptyState : ChainState where
  dialogue := fun _ => []
  userMsg := fun _ => []
  dialoguePrivateKeys := fun _ => 0
  userList := fun _ => 5
  acl := []
  selfAddr := 99

/-- The concurrent first send of the other participant (account 2 sending to
account 1 with external key 77), ordered by the ledger before our
transaction. -/
def raceInterfere : ChainState → ChainState :=
  fun s => PrivateMsg.sendMsg s 2 1 77 [9] 78 3 (fun h _ => h)

/-- The losing side of the first-send race: account 1 sends to account 2,
observes no stored key, generates key 33 and submits handle 133 for it, but
the interfering first send of account 2 is ordered first and its key 77
becomes canonical. -/
def raceSend :
    Except SdkError MessageModule.SendMessageResult × ChainState ×
      List (Nat × Nat) × List SdkOp :=
  MessageModule.sendMessage (fun _ => 0) (fun _ _ => none)
    (fun k _ n => (k + 100, n)) (fun m _ => m) 33 1 50 60 4 raceInterfere
    (fun h _ => h) registeredEmptyState [] 1 2 [8] [7] none

/-- C4 counterexample: in the first-send race, sendMessage returns plain
success (transaction hash, dialogue address, block number - a result type
with no mismatch field), its trace reads the stored key handle exactly once,
before the submission, and never re-reads it afterwards, although the
canonical stored key after the transaction (77, stored by the winning
sender) differs from the handle 133 this call encrypted under and submitted;
the mismatch is not surfaced to the caller. -/
theorem sendMessage_race_mismatch_undetected :
    raceSend.1 = .ok ⟨50, PrivateMsg.getMsgID 1 2, 60⟩ ∧
    raceSend.2.2.2 = [SdkOp.readKeyHandle (PrivateMsg.getMsgID 1 2) 0,
      SdkOp.fheEncryptKey 33, SdkOp.submitSendMsg 2 133 1 [8]] ∧
    MessageModule.postSubmitReread raceSend.2.2.2 = false ∧
    raceSend.2.1.dialoguePrivateKeys (PrivateMsg.getMsgID 1 2) = 77 ∧
    raceSend.2.1.dialoguePrivateKeys (PrivateMsg.getMsgID 1 2) ≠ 133 := by
  refine ⟨rfl, rfl, rfl, ?_, ?_⟩
  · decide
  · decide

/-- C4 amended: sendMessage never re-reads the canonical stored key handle
after submitting the transaction (in every execution the trace contains no
key-handle read after the submission), and a successful result carries only
the transaction hash, the dialogue address and the block number, so a
first-send race mismatch is not surfaced at send time; it becomes visible
only when the conversation is read back and the losing message decrypts to
the failure sentinel. -/
theorem sendMessage_no_post_submit_reread (walletAddr : Nat → Nat)
    (fheDecrypt : Nat → Nat → Option Nat)
    (fheEncrypt : Nat → Nat → Nat → Nat × Nat)
    (encBody : List Nat → Nat → List Nat)
    (genKey nonce txHash blockNumber txTime : Nat)
    (interfere : ChainState → ChainState) (fromExternal : Nat → Nat → Nat)
    (chain : ChainState) (cache : List (Nat × Nat))
    (signerAddress toAddr : Nat) (message password : List Nat)
    (dialogueKeyParam : Option Nat) :
    MessageModule.postSubmitReread
      (MessageModule.sendMessage walletAddr fheDecrypt fheEncrypt encBody
        genKey nonce txHash blockNumber txTime interfere fromExternal chain
        cache signerAddress toAddr message password dialogueKeyParam).2.2.2 =
      false ∧
    ∀ r, (MessageModule.sendMessage walletAddr fheDecrypt fheEncrypt encBody
        genKey nonce txHash blockNumber txTime interfere fromExternal chain
        cache signerAddress toAddr message password dialogueKeyParam).1 =
        .ok r →
      r = ⟨txHash, PrivateMsg.getMsgID signerAddress toAddr, blockNumber⟩ := by
  by_cases hreg : chain.userList signerAddress = 0
  · constructor
    · simp only [MessageModule.sendMessage, if_pos hreg]
      rfl
    · intro r hr
      simp only [MessageModule.sendMessage, if_pos hreg] at hr
      exact absurd hr (by simp)
  · rcases hres : MessageModule.resolveDialogueKey walletAddr fheDecrypt genKey
        chain cache signerAddress (PrivateMsg.getMsgID signerAddress toAddr)
        password dialogueKeyParam with ⟨e, cache2, tr⟩
    have hns : ∀ op ∈ tr, MessageModule.isSubmit op = false := by
      have htr : tr = (MessageModule.resolveDialogueKey walletAddr fheDecrypt
          genKey chain cache signerAddress
          (PrivateMsg.getMsgID signerAddress toAddr) password
          dialogueKeyParam).2.2 := by rw [hres]
      rw [htr]
      exact MessageModule.resolveDialogueKey_no_submit walletAddr fheDecrypt
        genKey chain cache signerAddress
        (PrivateMsg.getMsgID signerAddress toAddr) password dialogueKeyParam
    rcases e with err | key
    · constructor
      · simp only [MessageModule.sendMessage, if_neg hreg, hres]
        exact MessageModule.postSubmitReread_of_no_submit tr hns
      · intro r hr
        simp only [MessageModule.sendMessage, if_neg hreg, hres] at hr
        exact absurd hr (by simp)
    · constructor
      · simp only [MessageModule.sendMessage, if_neg hreg, hres]
        have hsplit : tr ++ [SdkOp.fheEncryptKey key,
            SdkOp.submitSendMsg toAddr
              (fheEncrypt key signerAddress nonce).1
              (fheEncrypt key signerAddress nonce).2 (encBody message key)] =
            (tr ++ [SdkOp.fheEncryptKey key]) ++
              [SdkOp.submitSendMsg toAddr
                (fheEncrypt key signerAddress nonce).1
                (fheEncrypt key signerAddress nonce).2
                (encBody message key)] := by simp
        rw [hsplit]
        apply MessageModule.postSubmitReread_append_last
        intro op hop
        rcases List.mem_append.mp hop with h | h
        · exact hns op h
        · simp only [List.mem_singleton] at h
          subst h
          rfl
      · intro r hr
        simp only [MessageModule.sendMessage, if_neg hreg, hres] at hr
        injection hr with h
        exact h.symm

/-- Witness for the amended C4 at the concrete race execution. -/
theorem sendMessage_no_post_submit_reread_witness :
    MessageModule.postSubmitReread raceSend.2.2.2 = false ∧
    (⟨50, PrivateMsg.getMsgID 1 2, 60⟩ : MessageModule.SendMessageResult) =
      ⟨50, PrivateMsg.getMsgID 1 2, 60⟩ := by
  obtain ⟨h1, h2⟩ := sendMessage_no_post_submit_reread (fun _ => 0)
    (fun _ _ => none) (fun k _ n => (k + 100, n)) (fun m _ => m) 33 1 50 60 4
    raceInterfere (fun h _ => h) registeredEmptyState [] 1 2 [8] [7] none
  exact ⟨h1, h2 ⟨50, PrivateMsg.getMsgID 1 2, 60⟩ rfl⟩

/-- C10: every successful sendMessage call, including a send into a
conversation that already has a canonical key, produces a fresh FHE
encryption of the resolved dialogue key and submits the resulting handle and
proof with the message transaction (the trace ends with the per-call
encryption of the key followed by the submission carrying exactly that
handle and proof); and when the dialogue is nonempty at execution time the
contract discards the submitted handle and keeps the originally stored
key. -/
theorem sendMessage_always_fresh_fhe_encrypt (walletAddr : Nat → Nat)
    (fheDecrypt : Nat → Nat → Option Nat)
    (fheEncrypt : Nat → Nat → Nat → Nat × Nat)
    (encBody : List Nat → Nat → List Nat)
    (genKey nonce txHash blockNumber txTime : Nat)
    (interfere : ChainState → ChainState) (fromExternal : Nat → Nat → Nat)
    (chain : ChainState) (cache : List (Nat × Nat))
    (signerAddress toAddr : Nat) (message password : List Nat)
    (dialogueKeyParam : Option Nat) (key : Nat)
    (hreg : chain.userList signerAddress ≠ 0)
    (hkey : (MessageModule.resolveDialogueKey walletAddr fheDecrypt genKey
      chain cache signerAddress (PrivateMsg.getMsgID signerAddress toAddr)
      password dialogueKeyParam).1 = .ok key) :
    (MessageModule.sendMessage walletAddr fheDecrypt fheEncrypt encBody
        genKey nonce txHash blockNumber txTime interfere fromExternal chain
        cache signerAddress toAddr message password dialogueKeyParam).2.2.2 =
      (MessageModule.resolveDialogueKey walletAddr fheDecrypt genKey chain
        cache signerAddress (PrivateMsg.getMsgID signerAddress toAddr)
        password dialogueKeyParam).2.2 ++
        [SdkOp.fheEncryptKey key,
         SdkOp.submitSendMsg toAddr (fheEncrypt key signerAddress nonce).1
           (fheEncrypt key signerAddress nonce).2 (encBody message key)] ∧
    (((interfere chain).dialogue
        (PrivateMsg.getMsgID signerAddress toAddr)).length ≠ 0 →
      (MessageModule.sendMessage walletAddr fheDecrypt fheEncrypt encBody
          genKey nonce txHash blockNumber txTime interfere fromExternal chain
          cache signerAddress toAddr message password
          dialogueKeyParam).2.1.dialoguePrivateKeys
        (PrivateMsg.getMsgID signerAddress toAddr) =
      (interfere chain).dialoguePrivateKeys
        (PrivateMsg.getMsgID signerAddress toAddr)) := by
  rcases hres : MessageModule.resolveDialogueKey walletAddr fheDecrypt genKey
      chain cache signerAddress (PrivateMsg.getMsgID signerAddress toAddr)
      password dialogueKeyParam with ⟨e, cache2, tr⟩
  have he : e = .ok key := by
    rw [hres] at hkey
    exact hkey
  subst he
  constructor
  · simp only [MessageModule.sendMessage, if_neg hreg, hres]
  · intro h
    simp only [MessageModule.sendMessage, if_neg hreg, hres]
    exact PrivateMsg.sendMsg_keys_frame (interfere chain) signerAddress
      toAddr (fheEncrypt key signerAddress nonce).1 (encBody message key)
      (fheEncrypt key signerAddress nonce).2 txTime fromExternal h

/-- Witness for C10: a send with an explicitly supplied dialogue key into a
state in which every dialogue already has one message and stored key 7; the
trace carries the fresh handle 142 with proof 1, and the stored key 7
survives the call. -/
theorem sendMessage_always_fresh_fhe_encrypt_witness :
    (MessageModule.sendMessage (fun _ => 0) (fun _ _ => none)
        (fun k _ n => (k + 100, n)) (fun m _ => m) 33 1 50 60 4 (fun s => s)
        (fun h _ => h) busyRegisteredState [] 1 2 [8] [7] (some 42)).2.2.2 =
      (MessageModule.resolveDialogueKey (fun _ => 0) (fun _ _ => none) 33
        busyRegisteredState [] 1 (PrivateMsg.getMsgID 1 2) [7]
        (some 42)).2.2 ++
        [SdkOp.fheEncryptKey 42, SdkOp.submitSendMsg 2 142 1 [8]] ∧
    (MessageModule.sendMessage (fun _ => 0) (fun _ _ => none)
        (fun k _ n => (k + 100, n)) (fun m _ => m) 33 1 50 60 4 (fun s => s)
        (fun h _ => h) busyRegisteredState [] 1 2 [8] [7]
        (some 42)).2.1.dialoguePrivateKeys (PrivateMsg.getMsgID 1 2) =
      busyRegisteredState.dialoguePrivateKeys (PrivateMsg.getMsgID 1 2) := by
  obtain ⟨h1, h2⟩ := sendMessage_always_fresh_fhe_encrypt (fun _ => 0)
    (fun _ _ => none) (fun k _ n => (k + 100, n)) (fun m _ => m) 33 1 50 60 4
    (fun s => s) (fun h _ => h) busyRegisteredState [] 1 2 [8] [7] (some 42)
    42 (by simp [busyRegisteredState]) rfl
  exact ⟨h1, h2 (by simp [busyRegisteredState])⟩
